import Mathlib

/-!
Verification development for the `pyndoc` preprocessor and server
(`src/pyndoc/preprocess.py`, `src/pyndoc/server.py`,
`src/pyndoc/server_utils.py`, `src/pyndoc/__main__.py`).

Strings are embedded as `List Char`; Python string indexing (which can raise
`IndexError`, and which wraps negative indices) and Python slicing (which
clamps) are modelled explicitly.  Fallible code returns `Except Err`.
-/

namespace Pyndoc

/-- The ways a run of the modelled Python code can fail: a reported parse
error (`throw_parsing_error`), an uncaught `IndexError` from string indexing,
an uncaught `KeyError` from a dict lookup, an uncaught `TypeError`, a plain
`raise Exception(...)` (used by `deindent`), exhaustion of the recursion
budget for nested file inclusion (modelling Python stack exhaustion), and a
marker for a driver-loop iteration that would not advance the cursor
(modelling an infinite loop). -/
inductive Err where
  | parseError (msg : String)
  | indexError
  | keyError
  | typeError
  | exc (msg : String)
  | depthExceeded
  | nonTermination
  deriving DecidableEq, Repr

/-- The `{` character (written via its code point). -/
def lbrace : Char := Char.ofNat 123

/-- The `}` character (written via its code point). -/
def rbrace : Char := Char.ofNat 125

/-- The single-quote character (written via its code point). -/
def squote : Char := Char.ofNat 39

/-- Python `s[i]` for a non-negative index: the character, or `IndexError`. -/
def pyGetNat (cs : List Char) (i : Nat) : Except Err Char :=
  match cs[i]? with
  | some c => .ok c
  | none => .error .indexError

theorem length_dropWhile_le (p : Char → Bool) (l : List Char) :
    (l.dropWhile p).length ≤ l.length := by
  induction l with
  | nil => simp [List.dropWhile]
  | cons c rest ih =>
    rw [List.dropWhile_cons]
    split
    · simp only [List.length_cons]; omega
    · exact Nat.le_refl _

theorem pyGetNat_ok {cs : List Char} {i : Nat} {c : Char}
    (h : pyGetNat cs i = .ok c) : i < cs.length ∧ cs[i]? = some c := by
  unfold pyGetNat at h
  cases hg : cs[i]? with
  | some c2 =>
    rw [hg] at h
    injection h with h2
    subst h2
    exact ⟨(List.getElem?_eq_some.mp hg).1, rfl⟩
  | none => rw [hg] at h; cases h

theorem pyGetNat_of_getElem? {cs : List Char} {i : Nat} {c : Char}
    (h : cs[i]? = some c) : pyGetNat cs i = .ok c := by
  unfold pyGetNat; rw [h]

/-- Python `s[i]` for an `Int` index: negative indices wrap from the end. -/
def pyGetInt (cs : List Char) (i : Int) : Except Err Char :=
  if 0 ≤ i then pyGetNat cs i.toNat
  else if i + cs.length < 0 then .error .indexError
  else pyGetNat cs (i + cs.length).toNat

/-- A computation that, if it fails, fails with a genuine Python exception:
never with the `nonTermination` marker (which only the driver loop emits for
a step that would not advance the cursor). -/
def noNT {α : Type} : Except Err α → Prop
  | .ok _ => True
  | .error e => ¬ e = Err.nonTermination

/-- A well-behaved reader result: a normal return consumes at least one
character, and a failure is a genuine exception (never the
`nonTermination` marker). -/
def stepGood : Except Err (Int × List Char) → Prop
  | .ok (skip, _) => 1 ≤ skip
  | .error e => ¬ e = Err.nonTermination

theorem noNT_bind {α β : Type} {r : Except Err α} {f : α → Except Err β}
    (h1 : noNT r) (h2 : ∀ a, r = .ok a → noNT (f a)) : noNT (r >>= f) := by
  cases r with
  | error e => exact h1
  | ok a => exact h2 a rfl

theorem stepGood_bind {α : Type} {r : Except Err α} {f : α → Except Err (Int × List Char)}
    (h1 : noNT r) (h2 : ∀ a, r = .ok a → stepGood (f a)) : stepGood (r >>= f) := by
  cases r with
  | error e => exact h1
  | ok a => exact h2 a rfl

theorem pyGetNat_noNT (cs : List Char) (i : Nat) : noNT (pyGetNat cs i) := by
  unfold pyGetNat
  cases cs[i]? <;> simp [noNT]

theorem pyGetInt_noNT (cs : List Char) (i : Int) : noNT (pyGetInt cs i) := by
  unfold pyGetInt
  split
  · exact pyGetNat_noNT cs i.toNat
  · split
    · simp [noNT]
    · exact pyGetNat_noNT cs (i + cs.length).toNat

/-- Clamp an `Int` slice bound to `[0, len]` the way Python slicing does. -/
def pyBound (len : Nat) (v : Int) : Nat :=
  if v < 0 then (if v + len < 0 then 0 else (v + len).toNat) else min v.toNat len

/-- Python `s[a:b]` for non-negative bounds (slicing never raises). -/
def pySliceNN (cs : List Char) (a b : Nat) : List Char := (cs.take b).drop a

/-- Python `s[a:b]` with full `Int` semantics. -/
def pySlice (cs : List Char) (a b : Int) : List Char :=
  (cs.take (pyBound cs.length b)).drop (pyBound cs.length a)

/-- The characters Python `str.strip()` removes. -/
def isPySpace (c : Char) : Bool :=
  c = ' ' || c = '\t' || c = '\n' || c = '\r' || c = '\x0b' || c = '\x0c'

/-- Python `str.lstrip()`. -/
def pyLstrip (cs : List Char) : List Char := cs.dropWhile isPySpace

/-- Python `str.rstrip()`. -/
def pyRstrip (cs : List Char) : List Char := (cs.reverse.dropWhile isPySpace).reverse

/-- Python `str.strip()`. -/
def pyStrip (cs : List Char) : List Char := pyRstrip (pyLstrip cs)

/-- Python `str.strip("\n")`. -/
def pyStripNl (cs : List Char) : List Char :=
  ((cs.dropWhile (fun c => c = '\n')).reverse.dropWhile (fun c => c = '\n')).reverse

/-- Python `str.splitlines()` for strings whose only line break is `"\n"`:
like `split("\n")` but without a trailing empty piece. -/
def pySplitLines (cs : List Char) : List (List Char) :=
  if cs = [] then []
  else if cs.getLast? = some '\n' then (cs.splitOn '\n').dropLast
  else cs.splitOn '\n'

/-- `"\n".join(...)`. -/
def joinNl (ls : List (List Char)) : List Char := List.intercalate ['\n'] ls

/-- Python `sub in s`: substring containment. -/
def listIsSub (pat s : List Char) : Bool := decide (pat <:+: s)

/-- `contains_any` (preprocess.py lines 657-660): whether any of the test
strings occurs as a substring. -/
def containsAny (s : List Char) (tests : List (List Char)) : Bool :=
  tests.any (fun t => listIsSub t s)

/-- `contents[i:].startswith(pat)`. -/
def startsWithAt (cs : List Char) (i : Nat) (pat : List Char) : Bool :=
  pat.isPrefixOf (cs.drop i)

/-- Python `str.replace(old, new)` for a non-empty `old` (all occurrences,
left to right). -/
def pyReplace (cs old new : List Char) : List Char :=
  match cs with
  | [] => []
  | c :: rest =>
    if h : old ≠ [] ∧ old.isPrefixOf (c :: rest) then
      new ++ pyReplace ((c :: rest).drop old.length) old new
    else
      c :: pyReplace rest old new
termination_by cs.length
decreasing_by
  · simp only [List.length_drop]
    have hlen : 0 < old.length := List.length_pos.mpr h.1
    simp only [List.length_cons]
    omega
  · simp only [List.length_cons]; omega

/-- `re.sub(r"\n\n+", "\n\n", s)` (preprocess.py line 747): each maximal run
of two or more newlines becomes exactly two. -/
def collapseNewlines (cs : List Char) : List Char :=
  match cs with
  | [] => []
  | c :: rest =>
    if c = '\n' then
      List.replicate (min (1 + (rest.takeWhile (fun c2 => c2 = '\n')).length) 2) '\n' ++
        collapseNewlines (rest.dropWhile (fun c2 => c2 = '\n'))
    else c :: collapseNewlines rest
termination_by cs.length
decreasing_by
  · have := length_dropWhile_le (fun c2 => decide (c2 = '\n')) rest
    simp only [List.length_cons]
    omega
  · simp only [List.length_cons]; omega

/-- Modelled from the spec claim wording: every run of three or more
consecutive newlines is replaced by exactly two; shorter runs are kept. -/
def specCollapseNewlines (cs : List Char) : List Char :=
  match cs with
  | [] => []
  | c :: rest =>
    if c = '\n' then
      List.replicate
        (if 3 ≤ 1 + (rest.takeWhile (fun c2 => c2 = '\n')).length then 2
         else 1 + (rest.takeWhile (fun c2 => c2 = '\n')).length) '\n' ++
        specCollapseNewlines (rest.dropWhile (fun c2 => c2 = '\n'))
    else c :: specCollapseNewlines rest
termination_by cs.length
decreasing_by
  · have := length_dropWhile_le (fun c2 => decide (c2 = '\n')) rest
    simp only [List.length_cons]
    omega
  · simp only [List.length_cons]; omega

theorem collapseNewlines_cons_nl (rest : List Char) :
    collapseNewlines ('\n' :: rest) =
      List.replicate (min (1 + (rest.takeWhile (fun c2 => c2 = '\n')).length) 2) '\n' ++
        collapseNewlines (rest.dropWhile (fun c2 => c2 = '\n')) := by
  conv_lhs => rw [collapseNewlines.eq_def]
  simp

theorem collapseNewlines_cons {c : Char} (rest : List Char) (hc : ¬ c = '\n') :
    collapseNewlines (c :: rest) = c :: collapseNewlines rest := by
  conv_lhs => rw [collapseNewlines.eq_def]
  simp [hc]

theorem specCollapseNewlines_cons_nl (rest : List Char) :
    specCollapseNewlines ('\n' :: rest) =
      List.replicate
        (if 3 ≤ 1 + (rest.takeWhile (fun c2 => c2 = '\n')).length then 2
         else 1 + (rest.takeWhile (fun c2 => c2 = '\n')).length) '\n' ++
        specCollapseNewlines (rest.dropWhile (fun c2 => c2 = '\n')) := by
  conv_lhs => rw [specCollapseNewlines.eq_def]
  simp

theorem specCollapseNewlines_cons {c : Char} (rest : List Char) (hc : ¬ c = '\n') :
    specCollapseNewlines (c :: rest) = c :: specCollapseNewlines rest := by
  conv_lhs => rw [specCollapseNewlines.eq_def]
  simp [hc]

theorem collapseNewlines_eq_spec (cs : List Char) :
    collapseNewlines cs = specCollapseNewlines cs := by
  induction cs using collapseNewlines.induct with
  | case1 => simp [collapseNewlines, specCollapseNewlines]
  | case2 rest ih =>
    rw [collapseNewlines_cons_nl, specCollapseNewlines_cons_nl, ih]
    have hn : min (1 + (rest.takeWhile (fun c2 => c2 = '\n')).length) 2 =
        (if 3 ≤ 1 + (rest.takeWhile (fun c2 => c2 = '\n')).length then 2
         else 1 + (rest.takeWhile (fun c2 => c2 = '\n')).length) := by
      by_cases h3 : 3 ≤ 1 + (rest.takeWhile (fun c2 => c2 = '\n')).length
      · rw [if_pos h3]; omega
      · rw [if_neg h3]; omega
    rw [hn]
  | case3 c rest hc ih =>
    rw [collapseNewlines_cons rest hc, specCollapseNewlines_cons rest hc, ih]

/-- `deindent` applied to one line: blank short lines become empty, other
lines must start with `indent` spaces (preprocess.py lines 20-44). -/
def deindentLine (indent : Nat) (line : List Char) : Except Err (List Char) :=
  if line.length < indent then
    if (pyStrip line).length = 0 then .ok []
    else .error (.exc "Inconsistent indentation in code block")
  else if line.take indent = List.replicate indent ' ' then .ok (line.drop indent)
  else .error (.exc "Inconsistent indentation in code block")

/-- `deindent` (preprocess.py lines 12-45): tabs become four spaces, the
first line fixes the indentation, which is stripped from every line. -/
def deindent (code : List Char) : Except Err (List Char) :=
  let code2 := pyReplace code ['\t'] (List.replicate 4 ' ')
  match hl : code2.splitOn '\n' with
  | [] => .ok code2
  | l0 :: rest =>
    let indent := l0.length - (pyLstrip l0).length
    match (l0 :: rest).mapM (deindentLine indent) with
    | .error e => .error e
    | .ok outLines => .ok (joinNl outLines)

/-- The scan for the closing delimiter of an inline code span
(preprocess.py lines 99-105): backslash skips a character, the next
unescaped delimiter closes the span. -/
def readCodeLoop1 (cs : List Char) (delimiter : Char) (start i : Nat) :
    Except Err (Int × List Char) :=
  if h : i < cs.length then
    if cs[i] = '\\' then readCodeLoop1 cs delimiter start (i + 2)
    else if cs[i] = delimiter then .ok ((i : Int) - start + 1, pySliceNN cs start (i + 1))
    else readCodeLoop1 cs delimiter start (i + 1)
  else .error (.parseError "Unterminated inline code block")
termination_by cs.length - i

/-- The scan for a double-backtick inline span (preprocess.py lines 110-116);
the lookahead `contents[i + 1]` is an unguarded index. -/
def readCodeLoop2 (cs : List Char) (delimiter : Char) (start i : Nat) :
    Except Err (Int × List Char) :=
  if h : i < cs.length then
    if cs[i] = '\\' then readCodeLoop2 cs delimiter start (i + 2)
    else if cs[i] = delimiter then
      match pyGetNat cs (i + 1) with
      | .error e => .error e
      | .ok c1 =>
        if c1 = delimiter then .ok ((i : Int) - start + 2, pySliceNN cs start (i + 2))
        else readCodeLoop2 cs delimiter start (i + 1)
    else readCodeLoop2 cs delimiter start (i + 1)
  else .error (.parseError "Unterminated inline code block")
termination_by cs.length - i

/-- The scan for the closing fence of a code block (preprocess.py lines
120-130): three consecutive delimiter characters close it. -/
def readCodeLoop3 (cs : List Char) (delimiter : Char) (start i : Nat) :
    Except Err (Int × List Char) :=
  if h : i < cs.length then
    if cs[i] = '\\' then readCodeLoop3 cs delimiter start (i + 2)
    else if cs[i] = delimiter ∧ cs[i-1]? = some delimiter ∧ cs[i-2]? = some delimiter then
      match deindent (pySliceNN cs start (i + 1)) with
      | .error e => .error e
      | .ok block => .ok ((i : Int) - start + 1, block)
    else readCodeLoop3 cs delimiter start (i + 1)
  else .error (.parseError "Unterminated code block")
termination_by cs.length - i

/-- `read_code` (preprocess.py lines 86-132). -/
def readCode (cs : List Char) (start : Nat) : Except Err (Int × List Char) :=
  match pyGetNat cs start with
  | .error e => .error e
  | .ok delimiter =>
    if cs.length ≤ start + 1 then .ok (1, [delimiter])
    else
      match pyGetNat cs (start + 1) with
      | .error e => .error e
      | .ok c1 =>
        if delimiter = '~' ∧ ¬ c1 = '~' then .ok (1, [delimiter])
        else if delimiter = '`' ∧ ¬ c1 = '`' then readCodeLoop1 cs delimiter start (start + 1)
        else if delimiter = '`' then
          match pyGetNat cs (start + 2) with
          | .error e => .error e
          | .ok c2 =>
            if ¬ c2 = '`' then readCodeLoop2 cs delimiter start (start + 2)
            else readCodeLoop3 cs delimiter start (start + 3)
        else readCodeLoop3 cs delimiter start (start + 3)

/-- The scan for the closing `$` of inline math (preprocess.py lines 144-150). -/
def readMathLoop1 (cs : List Char) (delimiter : Char) (start i : Nat) :
    Except Err (Int × List Char) :=
  if h : i < cs.length then
    if cs[i] = '\\' then readMathLoop1 cs delimiter start (i + 2)
    else if cs[i] = delimiter then .ok ((i : Int) - start + 1, pySliceNN cs start (i + 1))
    else readMathLoop1 cs delimiter start (i + 1)
  else .error (.parseError "Unterminated inline math block")
termination_by cs.length - i

/-- The scan for the closing `$$` of display math (preprocess.py lines 154-160). -/
def readMathLoop2 (cs : List Char) (delimiter : Char) (start i : Nat) :
    Except Err (Int × List Char) :=
  if h : i < cs.length then
    if cs[i] = '\\' then readMathLoop2 cs delimiter start (i + 2)
    else if cs[i] = delimiter ∧ cs[i-1]? = some delimiter then
      .ok ((i : Int) - start + 1, pySliceNN cs start (i + 1))
    else readMathLoop2 cs delimiter start (i + 1)
  else .error (.parseError "Unterminated math block")
termination_by cs.length - i

/-- `read_math` (preprocess.py lines 135-162). -/
def readMath (cs : List Char) (start : Nat) : Except Err (Int × List Char) :=
  match pyGetNat cs start with
  | .error e => .error e
  | .ok delimiter =>
    if cs.length ≤ start + 1 then .ok (1, [delimiter])
    else
      match pyGetNat cs (start + 1) with
      | .error e => .error e
      | .ok c1 =>
        if ¬ c1 = '$' then readMathLoop1 cs delimiter start (start + 1)
        else readMathLoop2 cs delimiter start (start + 2)

/-- Convert an `Except` over a subtype to a weaker lower bound. -/
def okGe {i i2 : Nat} (hle : i ≤ i2) :
    Except Err { j : Nat // i2 ≤ j } → Except Err { j : Nat // i ≤ j }
  | .error e => .error e
  | .ok ⟨j, hj⟩ => .ok ⟨j, Nat.le_trans hle hj⟩

/-- The scan of `find_string_end` (preprocess.py lines 217-228).  The result
carries the fact that the scan only moves forward, which the bracket matcher
needs for termination. -/
def findStringEndLoop (cs : List Char) (delimiter : Char) (isTriple : Bool) (i : Nat) :
    Except Err { j : Nat // i ≤ j } :=
  if h : i < cs.length then
    if cs[i] = '\\' then okGe (by omega) (findStringEndLoop cs delimiter isTriple (i + 2))
    else if cs[i] = delimiter then
      if isTriple = false then .ok ⟨i, Nat.le_refl i⟩
      else
        match pyGetNat cs (i + 1) with
        | .error e => .error e
        | .ok c1 =>
          if c1 = delimiter then
            match pyGetNat cs (i + 2) with
            | .error e => .error e
            | .ok c2 =>
              if c2 = delimiter then .ok ⟨i + 2, by omega⟩
              else okGe (by omega) (findStringEndLoop cs delimiter isTriple (i + 1))
          else okGe (by omega) (findStringEndLoop cs delimiter isTriple (i + 1))
    else okGe (by omega) (findStringEndLoop cs delimiter isTriple (i + 1))
  else .error (.parseError "Unterminated string")
termination_by cs.length - i

/-- `find_string_end` (preprocess.py lines 209-229).  The lookahead
`contents[start + 1]` on line 214 is an unguarded index (it can raise
`IndexError` when the quote is the last character). -/
def findStringEnd (cs : List Char) (start : Nat) : Except Err { j : Nat // start < j } :=
  match hd : pyGetNat cs start with
  | .error e => .error e
  | .ok delimiter =>
    if hlen : cs.length ≤ start then
      -- dead branch (lines 211-212): the index on line 210 has already
      -- succeeded, so `start < cs.length`
      absurd (pyGetNat_ok hd).1 (by omega)
    else
      match pyGetNat cs (start + 1) with
      | .error e => .error e
      | .ok c1 =>
        if c1 = delimiter then
          match pyGetNat cs (start + 2) with
          | .error e => .error e
          | .ok c2 =>
            okGe (by omega) (findStringEndLoop cs delimiter (c2 = delimiter) (start + 1))
        else okGe (by omega) (findStringEndLoop cs delimiter false (start + 1))

/-- One step of bracket bookkeeping in `find_matching_bracket`
(preprocess.py lines 189-202): in double mode a matching lookahead consumes
an extra character (an unguarded index). -/
def fmbBump (cs : List Char) (opening closing : Char) (isDouble : Bool) (count : Int)
    (i : Nat) (c : Char) : Except Err (Int × Nat) :=
  if c = opening then
    if isDouble then
      match pyGetNat cs (i + 1) with
      | .error e => .error e
      | .ok c1 => if c1 = opening then .ok (count + 1, i + 1) else .ok (count, i)
    else .ok (count + 1, i)
  else if c = closing then
    if isDouble then
      match pyGetNat cs (i + 1) with
      | .error e => .error e
      | .ok c1 => if c1 = closing then .ok (count - 1, i + 1) else .ok (count, i)
    else .ok (count - 1, i)
  else .ok (count, i)

theorem fmbBump_ge {cs : List Char} {opening closing : Char} {isDouble : Bool}
    {count count2 : Int} {i i2 : Nat} {c : Char}
    (h : fmbBump cs opening closing isDouble count i c = .ok (count2, i2)) :
    i ≤ i2 ∧ i2 ≤ i + 1 := by
  unfold fmbBump at h
  repeat' split at h
  all_goals cases h
  all_goals omega

/-- The scan of `find_matching_bracket` (preprocess.py lines 181-205). -/
def fmbLoop (cs : List Char) (opening closing : Char) (strict isDouble : Bool)
    (count : Int) (i : Nat) : Except Err Nat :=
  if h : i < cs.length then
    if cs[i] = '\\' then fmbLoop cs opening closing strict isDouble count (i + 2)
    else if strict = false ∧ (cs[i] = squote ∨ cs[i] = '"') then
      match findStringEnd cs i with
      | .error e => .error e
      | .ok ⟨j, hj⟩ => fmbLoop cs opening closing strict isDouble count (j + 1)
    else
      match hb : fmbBump cs opening closing isDouble count i cs[i] with
      | .error e => .error e
      | .ok (count2, i2) =>
        if count2 = 0 then .ok i2
        else fmbLoop cs opening closing strict isDouble count2 (i2 + 1)
  else .error (.parseError "Unterminated bracket")
termination_by cs.length - i
decreasing_by
  · omega
  · omega
  · have := fmbBump_ge hb
    omega

/-- The bracket table of `find_matching_bracket` (preprocess.py lines 168-174). -/
def bracketMap (c : Char) : Option Char :=
  if c = '(' then some ')'
  else if c = lbrace then some rbrace
  else if c = '[' then some ']'
  else if c = '<' then some '>'
  else none

/-- `find_matching_bracket` (preprocess.py lines 165-206). -/
def findMatchingBracket (cs : List Char) (start : Nat) (strict isDouble : Bool) :
    Except Err Nat :=
  match pyGetNat cs start with
  | .error e => .error e
  | .ok opening =>
    match bracketMap opening with
    | none => .error .keyError
    | some closing =>
      if isDouble then
        match pyGetNat cs (start + 1) with
        | .error e => .error e
        | .ok c1 =>
          if ¬ c1 = opening then .error (.parseError "Invalid double bracket")
          else fmbLoop cs opening closing strict isDouble 1 (start + 1)
      else fmbLoop cs opening closing strict isDouble 1 (start + 1)

theorem fmbLoop_eq_bs {cs : List Char} {opening closing : Char} {strict isDouble : Bool}
    {count : Int} {i : Nat} (h : i < cs.length) (hc : cs[i] = '\\') :
    fmbLoop cs opening closing strict isDouble count i =
      fmbLoop cs opening closing strict isDouble count (i + 2) := by
  conv_lhs => rw [fmbLoop.eq_def]
  simp only [dif_pos h, if_pos hc]

theorem fmbLoop_eq_str {cs : List Char} {opening closing : Char} {strict isDouble : Bool}
    {count : Int} {i j : Nat} {hj : i < j} (h : i < cs.length) (hbs : ¬ cs[i] = '\\')
    (hq : strict = false ∧ (cs[i] = squote ∨ cs[i] = '"'))
    (hfs : findStringEnd cs i = .ok ⟨j, hj⟩) :
    fmbLoop cs opening closing strict isDouble count i =
      fmbLoop cs opening closing strict isDouble count (j + 1) := by
  conv_lhs => rw [fmbLoop.eq_def]
  simp only [dif_pos h, if_neg hbs, if_pos hq, hfs]

theorem fmbLoop_eq_str_err {cs : List Char} {opening closing : Char} {strict isDouble : Bool}
    {count : Int} {i : Nat} {e : Err} (h : i < cs.length) (hbs : ¬ cs[i] = '\\')
    (hq : strict = false ∧ (cs[i] = squote ∨ cs[i] = '"'))
    (hfs : findStringEnd cs i = .error e) :
    fmbLoop cs opening closing strict isDouble count i = .error e := by
  conv_lhs => rw [fmbLoop.eq_def]
  simp only [dif_pos h, if_neg hbs, if_pos hq, hfs]

theorem fmbLoop_eq_bump_done {cs : List Char} {opening closing : Char} {strict isDouble : Bool}
    {count : Int} {i i2 : Nat} (h : i < cs.length) (hbs : ¬ cs[i] = '\\')
    (hq : ¬ (strict = false ∧ (cs[i] = squote ∨ cs[i] = '"')))
    (hb : fmbBump cs opening closing isDouble count i cs[i] = .ok (0, i2)) :
    fmbLoop cs opening closing strict isDouble count i = .ok i2 := by
  conv_lhs => rw [fmbLoop.eq_def]
  simp only [dif_pos h, if_neg hbs, if_neg hq]
  split
  next e heq => rw [hb] at heq; cases heq
  next count2b i2b heq =>
    rw [hb] at heq
    injection heq with heq2
    injection heq2 with hcc hii
    rw [← hcc, ← hii]
    simp

theorem fmbLoop_eq_bump_next {cs : List Char} {opening closing : Char} {strict isDouble : Bool}
    {count count2 : Int} {i i2 : Nat} (h : i < cs.length) (hbs : ¬ cs[i] = '\\')
    (hq : ¬ (strict = false ∧ (cs[i] = squote ∨ cs[i] = '"')))
    (hb : fmbBump cs opening closing isDouble count i cs[i] = .ok (count2, i2))
    (hc2 : ¬ count2 = 0) :
    fmbLoop cs opening closing strict isDouble count i =
      fmbLoop cs opening closing strict isDouble count2 (i2 + 1) := by
  conv_lhs => rw [fmbLoop.eq_def]
  simp only [dif_pos h, if_neg hbs, if_neg hq]
  split
  next e heq => rw [hb] at heq; cases heq
  next count2b i2b heq =>
    rw [hb] at heq
    injection heq with heq2
    injection heq2 with hcc hii
    rw [← hcc, ← hii, if_neg hc2]

theorem fmbLoop_eq_bump_err {cs : List Char} {opening closing : Char} {strict isDouble : Bool}
    {count : Int} {i : Nat} {e : Err} (h : i < cs.length) (hbs : ¬ cs[i] = '\\')
    (hq : ¬ (strict = false ∧ (cs[i] = squote ∨ cs[i] = '"')))
    (hb : fmbBump cs opening closing isDouble count i cs[i] = .error e) :
    fmbLoop cs opening closing strict isDouble count i = .error e := by
  conv_lhs => rw [fmbLoop.eq_def]
  simp only [dif_pos h, if_neg hbs, if_neg hq]
  split
  next e2 heq => rw [hb] at heq; injection heq with heq2; rw [heq2]
  next count2b i2b heq => rw [hb] at heq; cases heq

theorem fmbLoop_eq_end {cs : List Char} {opening closing : Char} {strict isDouble : Bool}
    {count : Int} {i : Nat} (h : ¬ i < cs.length) :
    fmbLoop cs opening closing strict isDouble count i =
      .error (.parseError "Unterminated bracket") := by
  conv_lhs => rw [fmbLoop.eq_def]
  simp only [dif_neg h]

theorem fmbLoop_ge (cs : List Char) (opening closing : Char) (strict isDouble : Bool)
    (count : Int) (i : Nat) :
    ∀ j, fmbLoop cs opening closing strict isDouble count i = .ok j → i ≤ j := by
  induction count, i using fmbLoop.induct cs opening closing strict isDouble with
  | case1 count i h hc ih =>
    intro j hj
    rw [fmbLoop_eq_bs h hc] at hj
    have := ih j hj
    omega
  | case2 count i h hbs hq e hfs =>
    intro j hj
    rw [fmbLoop_eq_str_err h hbs hq hfs] at hj
    cases hj
  | case3 count i h hbs hq j2 hj2 hfs ih =>
    intro j hj
    rw [fmbLoop_eq_str h hbs hq hfs] at hj
    have := ih j hj
    omega
  | case4 count i h hbs hq e hb =>
    intro j hj
    rw [fmbLoop_eq_bump_err h hbs hq hb] at hj
    cases hj
  | case5 count i h hbs hq i2 hb =>
    intro j hj
    rw [fmbLoop_eq_bump_done h hbs hq hb] at hj
    injection hj with h2
    have := fmbBump_ge hb
    omega
  | case6 count i h hbs hq count2 i2 hb hc2 ih =>
    intro j hj
    rw [fmbLoop_eq_bump_next h hbs hq hb hc2] at hj
    have := ih j hj
    have := fmbBump_ge hb
    omega
  | case7 count i h =>
    intro j hj
    rw [fmbLoop_eq_end h] at hj
    cases hj

theorem findMatchingBracket_gt {cs : List Char} {start : Nat} {strict isDouble : Bool}
    {j : Nat} (h : findMatchingBracket cs start strict isDouble = .ok j) : start < j := by
  unfold findMatchingBracket at h
  split at h
  · cases h
  · split at h
    · cases h
    · split at h
      · split at h
        · cases h
        · split at h
          · cases h
          · have := fmbLoop_ge cs _ _ strict isDouble 1 (start + 1) j h
            omega
      · have := fmbLoop_ge cs _ _ strict isDouble 1 (start + 1) j h
        omega

/-- The word characters of the regexes in preprocess.py (`\w`, ASCII reading). -/
def isWordChar (c : Char) : Bool := c.isAlphanum || c = '_'

/-- `get_identifier` (preprocess.py lines 232-240): the regex
`\w[\w\d\.]*` anchored at `start` — a word character followed by the longest
run of word or dot characters — returning `(length, name)` or `(0, None)`. -/
def getIdentifier (cs : List Char) (start : Nat) : Nat × Option (List Char) :=
  match cs[start]? with
  | some c =>
    if isWordChar c then
      let name := c :: (cs.drop (start + 1)).takeWhile (fun c2 => isWordChar c2 || c2 = '.')
      (name.length, some name)
    else (0, none)
  | none => (0, none)

theorem getIdentifier_some {cs : List Char} {start skip : Nat} {name : List Char}
    (h : getIdentifier cs start = (skip, some name)) :
    skip = name.length ∧ 1 ≤ skip := by
  unfold getIdentifier at h
  split at h
  · split at h
    · injection h with h1 h2
      injection h2 with h2
      subst h2
      subst h1
      refine ⟨rfl, ?_⟩
      simp
    · cases h
  · cases h

/-- `get_format_specifier` (preprocess.py lines 243-270): the format
specifier regex, read as a sequential greedy parse (every group is optional,
so the regex engine never backtracks across groups), followed by the
false-positive rejection. -/
def getFormatSpecifier (cs : List Char) (start : Nat) : Nat × Option (List Char) :=
  match cs[start]? with
  | some c0 =>
    if c0 = ':' then
      let p1 := start + 1
      let fillStep : Option Char × Nat :=
        match cs[p1]? with
        | some c => if ¬ c = '\n' then (some c, p1 + 1) else (none, p1)
        | none => (none, p1)
      let fill := fillStep.1
      let p2 := fillStep.2
      let alignStep : Option Char × Nat :=
        match cs[p2]? with
        | some c => if c = '>' || c = '<' || c = '=' || c = '^' then (some c, p2 + 1) else (none, p2)
        | none => (none, p2)
      let align := alignStep.1
      let p3 := alignStep.2
      let signStep : Option Char × Nat :=
        match cs[p3]? with
        | some c => if c = '+' || c = '-' || c = ' ' then (some c, p3 + 1) else (none, p3)
        | none => (none, p3)
      let sign := signStep.1
      let p4 := signStep.2
      let p5 := match cs[p4]? with
        | some c => if c = 'z' then p4 + 1 else p4
        | none => p4
      let p6 := match cs[p5]? with
        | some c => if c = '#' then p5 + 1 else p5
        | none => p5
      let p7 := match cs[p6]? with
        | some c => if c = '0' then p6 + 1 else p6
        | none => p6
      let p8 := p7 + ((cs.drop p7).takeWhile (fun c => c.isDigit)).length
      let p9 := match cs[p8]? with
        | some c => if c = '_' || c = ',' then p8 + 1 else p8
        | none => p8
      let p10 :=
        match cs[p9]? with
        | some c =>
          if c = '.' then
            if ((cs.drop (p9 + 1)).takeWhile (fun c2 => c2.isDigit)).length = 0 then p9
            else p9 + 1 + ((cs.drop (p9 + 1)).takeWhile (fun c2 => c2.isDigit)).length
          else p9
        | none => p9
      let p11 := match cs[p10]? with
        | some c => if "bcdeEfFgGnosxX%".toList.contains c then p10 + 1 else p10
        | none => p10
      let specifier := pySliceNN cs start p11
      if pyRstrip specifier = [':'] ∨ (fill = some ' ' ∧ sign = some ' ' ∧ align = none) then
        (0, none)
      else (specifier.length, some specifier)
    else (0, none)
  | none => (0, none)

/-- `get_format_specifier` at an `Int` position: `re` clamps a negative
`pos` to `0` (and a too-large one past the end, where the pattern cannot
match). -/
def getFormatSpecifierI (cs : List Char) (i : Int) : Nat × Option (List Char) :=
  if i < 0 then getFormatSpecifier cs 0 else getFormatSpecifier cs i.toNat

/-- `format_as_markdown` (preprocess.py lines 273-295). -/
def formatAsMarkdown (macroStr : List Char) (isDouble isQuiet isSolo : Bool)
    (isInline : Option Bool) (specifier : Option (List Char)) : List Char :=
  let macro2 :=
    if ¬ isDouble = true ∧ ¬ isQuiet = true then
      let macro1 :=
        if "print(".toList.isPrefixOf macroStr ∧ [')'].isSuffixOf macroStr then
          pySlice macroStr 6 (-1)
        else macroStr
      match specifier with
      | some spec =>
        "print(".toList ++ [squote, lbrace] ++ spec ++ [rbrace, squote] ++
          ".format(".toList ++ macro1 ++ "))".toList
      | none => "print(".toList ++ macro1 ++ [')']
    else macroStr
  let classes := (if isDouble then ".py-md".toList else ".py".toList) ++
    (if isQuiet then " .quiet".toList else []) ++
    (match isInline with
     | some true => " .inline".toList
     | some false => " .block".toList
     | none => [])
  if isSolo then
    "\n```".toList ++ [lbrace] ++ classes ++ [rbrace] ++ ['\n'] ++ macro2 ++ "\n```\n".toList
  else
    "`` ".toList ++ macro2 ++ " ``".toList ++ [lbrace] ++ classes ++ [rbrace]

/-- `get_line_number` (preprocess.py lines 299-301): `string.count("\n", 0, index)`. -/
def getLineNumber (cs : List Char) (index : Int) : Nat :=
  ((pySlice cs 0 index).filter (fun c => c = '\n')).length

/-- Python `lines[i]` on a list of lines. -/
def pyGetLine (ls : List (List Char)) (i : Nat) : Except Err (List Char) :=
  match ls[i]? with
  | some l => .ok l
  | none => .error .indexError

/-- `is_only_text_on_line` (preprocess.py lines 304-318), with Python's exact
slice arithmetic — including the `- 1` on `start_in_line`, which is `-1` when
the span starts on the first line and then slices from the end of that line. -/
def isOnlyTextOnLine (cs : List Char) (start endI : Int) : Except Err Bool := do
  let startLine := getLineNumber cs start
  let endLine := getLineNumber cs endI
  let lines := pySplitLines cs
  let startInLine : Int := start - (joinNl (lines.take startLine)).length - 1
  let endInLine : Int := endI - (joinNl (lines.take endLine)).length
  let startLineStr ← pyGetLine lines startLine
  let before := pySlice startLineStr 0 startInLine
  let endLineStr ← pyGetLine lines endLine
  let after := pySlice endLineStr endInLine endLineStr.length
  pure ((pyStrip before).isEmpty && (pyStrip after).isEmpty)

/-- The argument/attribute collection loop of `read_pyndoc_macro`
(preprocess.py lines 353-375): grows the macro string over calls `(...)`,
indexings `[...]` and attribute accesses `.name`; `nextChar` is `None` past
the end of the string. -/
def macroCollect (cs : List Char) (macroStr : List Char) (nextChar : Option Char) (i : Nat) :
    Except Err (List Char × Nat) :=
  if hw : (nextChar = some '(' ∨ nextChar = some '[' ∨ nextChar = some '.') ∧ i < cs.length - 1 then
    if nextChar = some '(' ∨ nextChar = some '[' then
      match hb : findMatchingBracket cs i false false with
      | .error e => .error e
      | .ok bracketEnd =>
        let args := pySliceNN cs i (bracketEnd + 1)
        let i2 := bracketEnd + 1
        macroCollect cs (macroStr ++ args)
          (if h2 : i2 < cs.length then some cs[i2] else none) i2
    else
      let i2 := i + 1
      match hid : getIdentifier cs i2 with
      | (skip, some field) =>
        let i3 := i2 + skip
        macroCollect cs (macroStr ++ '.' :: field)
          (if h2 : i3 < cs.length then some cs[i3] else none) i3
      | (_, none) => .ok (macroStr, i2 - 1)
  else .ok (macroStr, i)
termination_by cs.length - i
decreasing_by
  · have := findMatchingBracket_gt hb
    omega
  · have := (getIdentifier_some hid).2
    omega

/-- The argument collection loop of `read_pyndoc_raw_macro`
(preprocess.py lines 459-471): collects `{...}` and `{{...}}` arguments
(with `arg[1:-1]` stripping the doubled braces). -/
def rawMacroArgs (cs : List Char) (args : List (List Char × Bool)) (nextChar : Option Char)
    (i : Nat) : Except Err (List (List Char × Bool) × Nat) :=
  if hw : nextChar = some lbrace ∧ i < cs.length - 1 then
    match cs[i + 1]? with
    | none => .error .indexError
    | some nc =>
      let isRaw := nc == lbrace
      match hb : findMatchingBracket cs i false isRaw with
      | .error e => .error e
      | .ok argEnd =>
        let arg := pySliceNN cs (i + 1) argEnd
        let arg2 := if isRaw then pySlice arg 1 (-1) else arg
        rawMacroArgs cs (args ++ [(arg2, isRaw)])
          (if h2 : argEnd + 1 < cs.length then some cs[argEnd + 1] else none) (argEnd + 1)
  else .ok (args, i)
termination_by cs.length - i
decreasing_by
  · have := findMatchingBracket_gt hb
    omega

/-- The Python source text `r"""..."""` wrapping of one raw-macro argument
(preprocess.py lines 493-497). -/
def rawArgString (arg : List Char) (isRaw : Bool) : List Char :=
  if isRaw then
    "r".toList ++ ['"', '"', '"'] ++ pyReplace arg ['"'] ['\\', '"'] ++ ['"', '"', '"']
  else
    "md.convert_from_string(r".toList ++ ['"', '"', '"'] ++ pyReplace arg ['"'] ['\\', '"'] ++
      ['"', '"', '"'] ++ ", True, md.TARGET_FORMAT.name.lower())".toList

/-- The length of the `%`/`%%` prefix plus the optional `i`/`b` inline
marker in front of a macro or expression (preprocess.py lines 338-349,
414-419). -/
def macroPrefixLen (isDouble : Bool) (isInline : Option Bool) : Nat :=
  (if isDouble then 2 else 1) + (if isInline.isSome then 1 else 0)

/-- The optional format-specifier step shared by the readers
(preprocess.py lines 383-389, 421-427, 478-484): at a `:` the specifier is
consumed, otherwise the position is unchanged. -/
def specStepN (cs : List Char) (i1 : Nat) : Except Err (Option (List Char) × Nat) :=
  if i1 < cs.length then do
    let cAt ← pyGetNat cs i1
    if cAt = ':' then
      match getFormatSpecifier cs i1 with
      | (skipSpec, some sp) => pure (some sp, i1 + skipSpec)
      | (_, none) => pure ((none : Option (List Char)), i1)
    else pure ((none : Option (List Char)), i1)
  else pure ((none : Option (List Char)), i1)

/-- The optional `;` quiet-marker step shared by the readers
(preprocess.py lines 391-394, 429-432, 486-489). -/
def quietStepN (cs : List Char) (i2 : Nat) : Except Err (Bool × Nat) :=
  if i2 < cs.length then do
    let cAt ← pyGetNat cs i2
    if cAt = ';' then pure (true, i2 + 1) else pure (false, i2)
  else pure (false, i2)

/-- The format-specifier step of `read_pyndoc_macro` at an `Int` position
(the cursor there can in principle have been stepped back below zero). -/
def specStepI (cs : List Char) (i5 : Int) : Except Err (Option (List Char) × Int) :=
  if i5 < (cs.length : Int) then do
    let cAt ← pyGetInt cs i5
    if cAt = ':' then
      match getFormatSpecifierI cs i5 with
      | (skipSpec, some sp) => pure (some sp, i5 + skipSpec)
      | (_, none) => pure ((none : Option (List Char)), i5)
    else pure ((none : Option (List Char)), i5)
  else pure ((none : Option (List Char)), i5)

/-- The `;` quiet-marker step of `read_pyndoc_macro` at an `Int` position. -/
def quietStepI (cs : List Char) (i6 : Int) : Except Err (Bool × Int) :=
  if i6 < (cs.length : Int) then do
    let cAt ← pyGetInt cs i6
    if cAt = ';' then pure (true, i6 + 1) else pure (false, i6)
  else pure (false, i6)

/-- `read_pyndoc_raw_macro` (preprocess.py lines 444-504).  `startN` is the
position of the opening brace; `start` is recomputed (line 457) by stepping
back over the macro name and the `%` prefix, and can be negative in
principle, hence `Int`. -/
def readPyndocRawMacro (cs : List Char) (startN : Nat) (macroName : List Char)
    (isDouble : Bool) (isInline : Option Bool) : Except Err (Int × List Char) := do
  let start : Int := (startN : Int) -
    ((macroName.length : Int) + (macroPrefixLen isDouble isInline : Int))
  let nc0 ← pyGetNat cs startN
  let (args, i1) ← rawMacroArgs cs [] (some nc0) startN
  if (cs.length : Int) < (i1 : Int) then
    .error (.parseError "Unterminated raw macro")
  else
    let (specifier, i2) ← specStepN cs i1
    let (isQuiet, i3) ← quietStepN cs i2
    let isSolo ← isOnlyTextOnLine cs start ((i3 : Int) - 1)
    let macroStr := macroName ++ ['('] ++
      List.intercalate ", ".toList (args.map (fun p => rawArgString p.1 p.2)) ++ [')']
    pure (((i3 : Int) - start),
      formatAsMarkdown macroStr isDouble isQuiet isSolo isInline specifier)

/-- `read_pyndoc_macro` (preprocess.py lines 321-402). -/
def readPyndocMacro (cs : List Char) (start : Nat) : Except Err (Int × List Char) := do
  let c0 ← pyGetNat cs start
  let isInline : Option Bool := if c0 = 'i' then some true else if c0 = 'b' then some false else none
  let cD ← pyGetNat cs (start + (if isInline.isSome then 2 else 1))
  let isDouble := cD == '%'
  let i0 := start + macroPrefixLen isDouble isInline
  match getIdentifier cs i0 with
  | (_, none) => .error (.parseError "Invalid macro name")
  | (skip, some name0) =>
    let i1 := i0 + skip
    let nameStep : List Char × Nat :=
      if name0.getLast? = some '.' then (name0.dropLast, i1 - 1) else (name0, i1)
    let macroName := nameStep.1
    let i2 := nameStep.2
    if i2 = cs.length then do
      let isSolo ← isOnlyTextOnLine cs (start : Int) ((i2 : Int) - 1)
      pure (((i2 : Int) - start), formatAsMarkdown macroName isDouble false isSolo isInline none)
    else do
      let nextChar ← pyGetNat cs i2
      if nextChar = lbrace then readPyndocRawMacro cs i2 macroName isDouble isInline
      else do
        let (macroStr0, i3) ← macroCollect cs macroName (some nextChar) i2
        let stripped := pyStrip macroStr0
        let strippedLen := macroStr0.length - stripped.length
        let i4 : Int := (i3 : Int) - strippedLen
        let dotStep : List Char × Int :=
          if stripped.getLast? = some '.' then (stripped.dropLast, i4 - 2) else (stripped, i4)
        let macroStr := dotStep.1
        let i5 := dotStep.2
        let (specifier, i6) ← specStepI cs i5
        let (isQuiet, i7) ← quietStepI cs i6
        let isSolo ← isOnlyTextOnLine cs (start : Int) (i7 - 1)
        pure ((i7 - start),
          formatAsMarkdown macroStr isDouble isQuiet isSolo isInline specifier)

/-- `read_pyndoc_expression` (preprocess.py lines 404-442). -/
def readPyndocExpression (cs : List Char) (start : Nat) : Except Err (Int × List Char) := do
  let c0 ← pyGetNat cs start
  let isInline : Option Bool := if c0 = 'i' then some true else if c0 = 'b' then some false else none
  let cD ← pyGetNat cs (start + (if isInline.isSome then 2 else 1))
  let isDouble := cD == '%'
  let i0 := start + macroPrefixLen isDouble isInline
  let bracketEnd ← findMatchingBracket cs i0 false false
  let macroStr0 := pySliceNN cs (i0 + 1) bracketEnd
  let i1 := bracketEnd + 1
  let macroStr := pyStrip macroStr0
  let (specifier, i2) ← specStepN cs i1
  let (isQuiet, i3) ← quietStepN cs i2
  let isSolo ← isOnlyTextOnLine cs (start : Int) ((i3 : Int) - 1)
  pure (((i3 : Int) - start),
    formatAsMarkdown macroStr isDouble isQuiet isSolo isInline specifier)

/-- `format_block_as_markdown` (preprocess.py lines 507-513). -/
def formatBlockAsMarkdown (block : List Char) (isQuiet isSolo : Bool) : List Char :=
  let classes := ".py".toList ++ (if isQuiet then " .quiet".toList else [])
  if isSolo then
    "\n```".toList ++ [lbrace] ++ classes ++ [rbrace] ++ ['\n'] ++ block ++ "\n```\n".toList
  else
    "`` ".toList ++ block ++ " ``".toList ++ [lbrace] ++ classes ++ [rbrace]

/-- `read_pyndoc_block` (preprocess.py lines 516-526). -/
def readPyndocBlock (cs : List Char) (start : Nat) : Except Err (Int × List Char) := do
  let i := start + 1
  let endB ← findMatchingBracket cs i false false
  let skip0 : Int := (endB : Int) - start + 1
  let block0 := pySliceNN cs (i + 1) endB
  let block ← deindent (pyStripNl block0)
  let isQuiet := decide (cs[endB + 1]? = some ';')
  let skip1 : Int := skip0 + (if isQuiet then 1 else 0)
  let isSolo ← isOnlyTextOnLine cs (start : Int) ((start : Int) + skip1 - 1)
  pure (skip1, formatBlockAsMarkdown block isQuiet isSolo)

/-- `read_pyndoc_file` (preprocess.py lines 574-587): emits a
`.py-file` span; the filename has `{format}` substituted (a `None` target
format raises `TypeError` in `str.replace`). -/
def readPyndocFile (cs : List Char) (start : Nat) (targetFormat : Option (List Char)) :
    Except Err (Int × List Char) := do
  let i := start + 5
  let endB ← findMatchingBracket cs i false false
  let skip0 : Int := (endB : Int) - start + 1
  let filename0 := pyStrip (pySliceNN cs (i + 1) endB)
  match targetFormat with
  | none => .error .typeError
  | some fmt =>
    let filename := pyReplace filename0 "\x7bformat\x7d".toList fmt
    let _ ← isOnlyTextOnLine cs (start : Int) ((start : Int) + skip0 - 1)
    let isQuiet := decide (cs[endB + 1]? = some ';')
    let classes := ".py-file".toList ++ (if isQuiet then " .quiet".toList else [])
    let skip1 : Int := skip0 + (if isQuiet then 1 else 0)
    pure (skip1, "`` ".toList ++ filename ++ " ``".toList ++ [lbrace] ++ classes ++ [rbrace])

/-- `CHUNK_SIZES` (preprocess.py line 655). -/
def CHUNK_SIZES : List Nat := [10000, 5000, 2000, 1000, 500, 250, 100]

/-- The trigger strings of the chunk fast-path (preprocess.py line 671). -/
def chunkTriggers : List (List Char) :=
  ["%".toList, "<!--".toList, ['"'], [squote], ['\\'], ['$']]

/-- The chunk fast-path of `preprocess` (preprocess.py lines 668-677): walk
the remaining chunk sizes; a chunk that fits and contains no trigger string
is copied (`some size`); a chunk size that does not fit bumps
`check_chunks_idx`. -/
def tryChunksGo (cs : List Char) (i : Nat) (sizes : List Nat) (idx : Nat) : Nat × Option Nat :=
  match sizes with
  | [] => (idx, none)
  | sz :: rest =>
    if i + sz < cs.length then
      if ¬ containsAny (pySliceNN cs i (i + sz)) chunkTriggers then (idx, some sz)
      else tryChunksGo cs i rest idx
    else tryChunksGo cs i rest (idx + 1)

/-- The chunk fast-path, starting from the persisted `check_chunks_idx`. -/
def tryChunks (cs : List Char) (i idx : Nat) : Nat × Option Nat :=
  tryChunksGo cs i (CHUNK_SIZES.drop idx) idx

theorem tryChunksGo_some {cs : List Char} {i : Nat} {sizes : List Nat} {idx idx2 sz : Nat}
    (hall : ∀ s ∈ sizes, 0 < s)
    (h : tryChunksGo cs i sizes idx = (idx2, some sz)) : 0 < sz ∧ i + sz < cs.length := by
  induction sizes generalizing idx with
  | nil => unfold tryChunksGo at h; cases h
  | cons s rest ih =>
    unfold tryChunksGo at h
    split at h
    · split at h
      · injection h with h1 h2
        injection h2 with h2
        subst h2
        exact ⟨hall s (by simp), by assumption⟩
      · exact ih (fun x hx => hall x (by simp [hx])) h
    · exact ih (fun x hx => hall x (by simp [hx])) h

theorem tryChunks_some {cs : List Char} {i idx idx2 sz : Nat}
    (h : tryChunks cs i idx = (idx2, some sz)) : 0 < sz ∧ i + sz < cs.length := by
  unfold tryChunks at h
  refine tryChunksGo_some ?_ h
  intro s hs
  have hmem : s ∈ CHUNK_SIZES := List.mem_of_mem_drop hs
  simp only [CHUNK_SIZES, List.mem_cons, List.not_mem_nil, or_false] at hmem
  omega

/-- Whether the character at `j` exists and is a word character. -/
def wordAt (cs : List Char) (j : Nat) : Bool :=
  match cs[j]? with
  | some c => isWordChar c
  | none => false

/-- `%{1,2}\w` anchored at `j` (with the regex backtracking from two `%` to
one unfolded into a disjunction). -/
def pctWordFrom (cs : List Char) (j : Nat) : Bool :=
  decide (cs[j]? = some '%') &&
    ((decide (cs[j + 1]? = some '%') && wordAt cs (j + 2)) || wordAt cs (j + 1))

/-- `re.match(r"[ib]?\%{1,2}\w", contents[i:])` (preprocess.py line 709). -/
def matchesMacroStart (cs : List Char) (i : Nat) : Bool :=
  pctWordFrom cs i ||
    ((decide (cs[i]? = some 'i') || decide (cs[i]? = some 'b')) && pctWordFrom cs (i + 1))

/-- `%{1,2}\(` anchored at `j`. -/
def pctParenFrom (cs : List Char) (j : Nat) : Bool :=
  decide (cs[j]? = some '%') &&
    ((decide (cs[j + 1]? = some '%') && decide (cs[j + 2]? = some '(')) ||
      decide (cs[j + 1]? = some '('))

/-- `re.match(r"[ib]?\%{1,2}\(", contents[i:])` (preprocess.py line 715). -/
def matchesExprStart (cs : List Char) (i : Nat) : Bool :=
  pctParenFrom cs i ||
    ((decide (cs[i]? = some 'i') || decide (cs[i]? = some 'b')) && pctParenFrom cs (i + 1))

/-- The comment-skipping loop of `preprocess` (preprocess.py lines 685-686):
advance until `-->` starts at the cursor or the end is passed. -/
def commentEnd (cs : List Char) (i : Nat) : Nat :=
  if h : ¬ startsWithAt cs i "-->".toList ∧ i < cs.length then commentEnd cs (i + 1) else i
termination_by cs.length - i

theorem commentEnd_ge (cs : List Char) (i : Nat) : i ≤ commentEnd cs i := by
  induction i using commentEnd.induct cs with
  | case1 i h ih =>
    rw [commentEnd, dif_pos h]
    omega
  | case2 i h =>
    rw [commentEnd, dif_neg h]

/-- One `%%%mdifformat` option line `fmt1, fmt2: path`, parsed
(preprocess.py lines 640-643); an option without exactly one `:` raises a
`ValueError` on unpacking. -/
def parseCondOptions (body : List Char) :
    Except Err (List (List (List Char) × List Char)) :=
  let opts := ((body.splitOn ';').map pyStrip).filter (fun o => 0 < o.length)
  opts.mapM (fun o =>
    match o.splitOn ':' with
    | [fmts, path] =>
      .ok ((fmts.splitOn ',').map (fun f => (pyStrip f).map Char.toLower), pyStrip path)
    | _ => .error (.exc "ValueError: not enough values to unpack"))

mutual

/-- `preprocess` (preprocess.py lines 662-748).  `fs` maps file names to
contents (modelling the files `%%%md`/`%%%mdifformat` read); `depth` bounds
the file-inclusion recursion (modelling Python stack exhaustion). -/
def preprocess (fs : List (List Char × List Char)) (depth : Nat) (contents : List Char)
    (targetFormat : Option (List Char)) : Except Err (List Char) :=
  match preprocessLoop fs depth contents targetFormat 0 0 [] with
  | .error e => .error e
  | .ok newText => .ok (collapseNewlines newText)
termination_by (depth, contents.length + 1, 0)

/-- The driver loop of `preprocess` (preprocess.py lines 667-745): the chunk
fast-path, then one dispatch step; the cursor advances by the returned
consumed length.  A step that would not advance the cursor is reported as
`Err.nonTermination` (the Python loop would spin forever). -/
def preprocessLoop (fs : List (List Char × List Char)) (depth : Nat) (cs : List Char)
    (targetFormat : Option (List Char)) (i chunkIdx : Nat) (acc : List Char) :
    Except Err (List Char) :=
  if h : i < cs.length then
    match hch : tryChunks cs i chunkIdx with
    | (idx2, some sz) =>
      preprocessLoop fs depth cs targetFormat (i + sz) idx2 (acc ++ pySliceNN cs i (i + sz))
    | (idx2, none) =>
      match driverStep fs depth cs targetFormat i with
      | .error e => .error e
      | .ok (skip, txt) =>
        if hs : 0 < skip then
          preprocessLoop fs depth cs targetFormat (i + skip.toNat) idx2 (acc ++ txt)
        else .error .nonTermination
  else .ok acc
termination_by (depth, cs.length - i, 1)
decreasing_by
  · have := tryChunks_some hch
    apply Prod.Lex.right
    apply Prod.Lex.left
    omega
  · apply Prod.Lex.right
    by_cases h2 : cs.length - i = 1
    · rw [h2]
      apply Prod.Lex.right
      omega
    · apply Prod.Lex.left
      omega
  · apply Prod.Lex.right
    apply Prod.Lex.left
    omega

/-- One dispatch step of the driver loop (preprocess.py lines 681-745),
after the chunk fast-path has declined: comment, escape, code, math, macro,
expression, block, file inclusion, or a plain copied character. -/
def driverStep (fs : List (List Char × List Char)) (depth : Nat) (cs : List Char)
    (targetFormat : Option (List Char)) (i : Nat) : Except Err (Int × List Char) :=
  match pyGetNat cs i with
  | .error e => .error e
  | .ok c =>
    if startsWithAt cs i "<!--".toList then
      .ok (((commentEnd cs i : Int) + 3 - i), [])
    else if c = '\\' then
      match cs[i + 1]? with
      | some nc => .ok (2, [c, nc])
      | none => .ok (1, [c])
    else if c = '`' then readCode cs i
    else if c = '$' then readMath cs i
    else if matchesMacroStart cs i then readPyndocMacro cs i
    else if matchesExprStart cs i then readPyndocExpression cs i
    else if startsWithAt cs i "%\x7b".toList then readPyndocBlock cs i
    else if startsWithAt cs i "%%%py\x7b".toList then readPyndocFile cs i targetFormat
    else if startsWithAt cs i "%%%mdifformat".toList then
      readPyndocConditionalMdFile fs depth cs i targetFormat
    else if startsWithAt cs i "%%%md".toList then
      readPyndocMdFile fs depth cs i targetFormat
    else .ok (1, [c])
termination_by (depth, 1, 0)
decreasing_by
  · apply Prod.Lex.right
    apply Prod.Lex.left
    omega
  · apply Prod.Lex.right
    apply Prod.Lex.left
    omega

/-- `read_pyndoc_md_file` (preprocess.py lines 590-623): reads the named
file and preprocesses its contents recursively.  The elaborate
missing-file diagnostics (lines 599-618) are abstracted into a single
parse error against the file-system map `fs`. -/
def readPyndocMdFile (fs : List (List Char × List Char)) (depth : Nat) (cs : List Char)
    (start : Nat) (targetFormat : Option (List Char)) : Except Err (Int × List Char) :=
  match findMatchingBracket cs (start + 5) false false with
  | .error e => .error e
  | .ok endB =>
    match targetFormat with
    | none => .error .typeError
    | some fmt =>
      let filename := pyReplace (pyStrip (pySliceNN cs (start + 5 + 1) endB))
        "\x7bformat\x7d".toList fmt
      match fs.lookup filename with
      | none => .error (.parseError "File does not exist")
      | some fileContents =>
        match depth with
        | 0 => .error .depthExceeded
        | d + 1 =>
          match preprocess fs d fileContents targetFormat with
          | .error e => .error e
          | .ok processed => .ok (((endB : Int) - start + 1), processed)
termination_by (depth, 0, 0)
decreasing_by
  · apply Prod.Lex.left
    omega

/-- `read_pyndoc_conditional_md_file` (preprocess.py lines 626-653): include
the first file whose format list contains the target format, preprocessed
recursively; no match includes nothing. -/
def readPyndocConditionalMdFile (fs : List (List Char × List Char)) (depth : Nat)
    (cs : List Char) (start : Nat) (targetFormat : Option (List Char)) :
    Except Err (Int × List Char) :=
  match findMatchingBracket cs (start + "%%%mdifformat".length) false false with
  | .error e => .error e
  | .ok endB =>
    match parseCondOptions (pySliceNN cs (start + "%%%mdifformat".length + 1) endB) with
    | .error e => .error e
    | .ok options =>
      match options with
      | [] => .ok (((endB : Int) - start + 1), [])
      | _ :: _ =>
        match targetFormat with
        | none => .error (.exc "AttributeError: NoneType has no attribute lower")
        | some fmt =>
          let fmtL := fmt.map Char.toLower
          match options.find? (fun o => decide (fmtL ∈ o.1)) with
          | none => .ok (((endB : Int) - start + 1), [])
          | some (_, path) =>
            match fs.lookup path with
            | none => .error (.parseError "File does not exist")
            | some fileContents =>
              match depth with
              | 0 => .error .depthExceeded
              | d + 1 =>
                match preprocess fs d fileContents targetFormat with
                | .error e => .error e
                | .ok processed => .ok (((endB : Int) - start + 1), processed)
termination_by (depth, 0, 0)
decreasing_by
  · apply Prod.Lex.left
    omega

end

/-! ### Server model (server.py, server_utils.py, `__main__.py`) -/

/-- A flat JSON value (all the values the server/metadata claims involve). -/
inductive PyVal where
  | str (s : String)
  | int (n : Int)
  deriving DecidableEq, Repr

/-- A JSON object, as the ordered key/value pairs `json.dumps` emits. -/
abbrev PyObj : Type := List (String × PyVal)

/-- Key lookup in a JSON object (Python `d[k]` / `d.get(k)`). -/
def PyObj.lookup (o : PyObj) (k : String) : Option PyVal :=
  List.lookup k o

/-- `save_metadata` (server.py lines 166-170): the record written to the
well-known metadata file by the server process when it starts. -/
def saveMetadata (port : Int) : PyObj := [("port", .int port)]

/-- The metadata record `get_or_start_server` writes after starting the
server (server_utils.py lines 70-71). -/
def getOrStartServerMetadata (port : Int) : PyObj := [("port", .int port)]

/-- The metadata record the main CLI writes after `get_or_start_server`
returns (`__main__.py` lines 293-296). -/
def mainMetadata (targetFormat : String) (port : Int) : PyObj :=
  [("format", .str targetFormat), ("port", .int port)]

/-- `send_response` (server.py lines 172-175): the JSON object sent over the
connection. -/
def sendResponseJson (message : PyVal) (messageType : String) : PyObj :=
  [("message", message), ("type", .str messageType)]

/-- `ping_handler` (server.py lines 177-180): the responses it sends and its
continue-listening return value. -/
def pingHandler (message : PyObj) : List PyObj × Bool :=
  ([sendResponseJson (.str "pong") "ping"], true)

/-- The Python exceptions `handle_client` can die with. -/
inductive PyExc where
  | keyError
  | unboundLocalError
  deriving DecidableEq, Repr

/-- What one `handle_client` call did: the responses written to the socket,
whether the connection was closed, the exception escaping the thread (if
any), and whether `listening.set()` was called. -/
structure ClientTrace where
  responses : List PyObj
  closed : Bool
  raised : Option PyExc
  stopListening : Bool
  deriving DecidableEq, Repr

/-- The keys of the `handlers` table (server.py lines 239-245). -/
def handlerNames : List String := ["ping", "shutdown", "string", "object", "file"]

/-- The `try`/`except` part of `handle_client` (server.py lines 253-265) for
a request that parsed as a JSON object `fields`: either the responses sent
plus `continue_listening`, or the exception escaping every `except` clause.
Reading `message["type"]` (line 255) raises `KeyError` when the field is
missing; the `except KeyError` handler (lines 260-262) evaluates
`message["type"]` again inside its f-string, raising `KeyError` a second
time, which no clause of this `try` catches.  `run` abstracts the behaviour
of the five registered handlers (line 256). -/
def handleClientBody (fields : PyObj) (run : String → PyObj → List PyObj × Bool) :
    Except PyExc (List PyObj × Bool) :=
  match fields.lookup "type" with
  | none =>
    match fields.lookup "type" with
    | none => .error .keyError
    | some _ => .ok ([], true)
  | some (.str ty) =>
    if ty ∈ handlerNames then .ok (run ty fields)
    else
      .ok ([sendResponseJson (.str ("Invalid message type `" ++ ty ++ "`")) "error"], true)
  | some (.int n) =>
    .ok ([sendResponseJson (.str ("Invalid message type `" ++ toString n ++ "`")) "error"], true)

/-- `handle_client` (server.py lines 248-269) for a request that parsed as a
JSON object: the `finally` block (lines 266-269) closes the connection and
then reads `continue_listening`, which is unbound when an exception escaped
the `except` clauses — the in-flight exception is replaced by the
`UnboundLocalError`, and no response has been sent. -/
def handleClient (fields : PyObj) (run : String → PyObj → List PyObj × Bool) : ClientTrace :=
  match handleClientBody fields run with
  | .ok (rs, cont) => ⟨rs, true, none, !cont⟩
  | .error _ => ⟨[], true, some .unboundLocalError, false⟩

/-! ### Doubled-brace scan lemmas (for C3) -/

theorem fmbBump_noop_double (cs : List Char) (opening closing : Char) (count : Int) (i : Nat)
    (c nc : Char) (hnext : cs[i + 1]? = some nc)
    (hco : c = opening → ¬ nc = opening) (hcc : c = closing → ¬ nc = closing) :
    fmbBump cs opening closing true count i c = .ok (count, i) := by
  unfold fmbBump
  split
  next hc =>
    rw [if_pos rfl, pyGetNat_of_getElem? hnext]
    simp [hco hc]
  next hc =>
    split
    next hc2 =>
      rw [if_pos rfl, pyGetNat_of_getElem? hnext]
      simp [hcc hc2]
    next hc2 => rfl

theorem fmbBump_close_double (cs : List Char) (opening closing : Char) (count : Int) (i : Nat)
    (c : Char) (hc : c = closing) (hne : ¬ closing = opening)
    (hnext : cs[i + 1]? = some closing) :
    fmbBump cs opening closing true count i c = .ok (count - 1, i + 1) := by
  unfold fmbBump
  rw [if_neg (by rw [hc]; exact hne), if_pos hc, if_pos rfl, pyGetNat_of_getElem? hnext]
  simp

/-- A position the doubled-brace scan passes over without changing the
count: a character that is not a backslash or quote, whose brace (if it is
one) is not doubled by the next character. -/
def dblNoopAt (cs : List Char) (k : Nat) : Prop :=
  ∃ c nc, cs[k]? = some c ∧ cs[k + 1]? = some nc ∧
    ¬ c = '\\' ∧ ¬ c = squote ∧ ¬ c = '"' ∧
    (c = lbrace → ¬ nc = lbrace) ∧ (c = rbrace → ¬ nc = rbrace)

theorem fmbLoop_double_noop (cs : List Char) :
    ∀ (n a : Nat) (count : Int), ¬ count = 0 →
      (∀ k, a ≤ k → k < a + n → dblNoopAt cs k) →
      fmbLoop cs lbrace rbrace false true count a =
        fmbLoop cs lbrace rbrace false true count (a + n) := by
  intro n
  induction n with
  | zero => intro a count hc hall; rfl
  | succ m ih =>
    intro a count hc hall
    obtain ⟨c, nc, hg, hgn, hbs, hsq, hdq, hlb, hrb⟩ := hall a (Nat.le_refl a) (by omega)
    have hlt : a < cs.length := (List.getElem?_eq_some.mp hg).1
    have hca : cs[a] = c := by
      obtain ⟨h1, h2⟩ := List.getElem?_eq_some.mp hg
      exact h2
    have hbump : fmbBump cs lbrace rbrace true count a cs[a] = .ok (count, a) := by
      rw [hca]
      exact fmbBump_noop_double cs lbrace rbrace count a c nc hgn hlb hrb
    have hstep : fmbLoop cs lbrace rbrace false true count a =
        fmbLoop cs lbrace rbrace false true count (a + 1) :=
      fmbLoop_eq_bump_next hlt (by rw [hca]; exact hbs)
        (by
          rw [hca]
          intro hx
          rcases hx.2 with h2 | h2
          · exact hsq h2
          · exact hdq h2)
        hbump hc
    rw [hstep, ih (a + 1) count hc (fun k hk1 hk2 => hall k (by omega) (by omega)),
      show a + 1 + m = a + (m + 1) from by omega]

theorem rawMacroArgs_step (cs : List Char) (args : List (List Char × Bool)) (i : Nat)
    (nc : Char) (argEnd : Nat) (hw : i < cs.length - 1) (hnc : cs[i + 1]? = some nc)
    (hfmb : findMatchingBracket cs i false (nc == lbrace) = .ok argEnd) :
    rawMacroArgs cs args (some lbrace) i =
      rawMacroArgs cs
        (args ++ [(if (nc == lbrace) then pySlice (pySliceNN cs (i + 1) argEnd) 1 (-1)
                   else pySliceNN cs (i + 1) argEnd, nc == lbrace)])
        (if h2 : argEnd + 1 < cs.length then some cs[argEnd + 1] else none) (argEnd + 1) := by
  conv_lhs => rw [rawMacroArgs.eq_def]
  rw [dif_pos ⟨rfl, hw⟩, hnc]
  split
  next heq => cases heq
  next aE heq =>
    injection heq with heq2
    subst heq2
    dsimp only
    split
    next e heq3 => rw [hfmb] at heq3; cases heq3
    next aEnd heq3 =>
      rw [hfmb] at heq3
      injection heq3 with h2
      rw [← h2]

theorem rawMacroArgs_end (cs : List Char) (args : List (List Char × Bool))
    (nc : Option Char) (i : Nat) (hw : ¬ (nc = some lbrace ∧ i < cs.length - 1)) :
    rawMacroArgs cs args nc i = .ok (args, i) := by
  rw [rawMacroArgs.eq_def, dif_neg hw]

theorem pySliceNN_mid (pre mid suf : List Char) :
    pySliceNN (pre ++ (mid ++ suf)) pre.length (pre.length + mid.length) = mid := by
  unfold pySliceNN
  rw [List.take_append, List.take_left, List.drop_left]

theorem pySlice_inner (a b : Char) (xs : List Char) :
    pySlice (a :: (xs ++ [b])) 1 (-1) = xs := by
  unfold pySlice pyBound
  have hlen : (a :: (xs ++ [b])).length = xs.length + 2 := by simp
  rw [hlen]
  rw [if_pos (by omega : (-1 : Int) < 0),
    if_neg (by omega : ¬ ((-1 : Int) + (xs.length + 2 : Nat) < 0)),
    if_neg (by omega : ¬ ((1 : Int) < 0))]
  rw [show ((-1 : Int) + (xs.length + 2 : Nat)).toNat = xs.length + 1 from by omega]
  rw [show min (1 : Int).toNat (xs.length + 2) = 1 from by omega]
  rw [List.take_succ_cons, List.take_left]
  rfl

/-! ### Balanced-body lemmas (for C2) -/

theorem getElem?_append_first (pre : List Char) (c : Char) (t : List Char) :
    (pre ++ (c :: t))[pre.length]? = some c := by
  rw [List.getElem?_append_right (Nat.le_refl _)]
  simp

theorem fmbBump_false_other (cs : List Char) (o cl : Char) (count : Int) (i : Nat) (c : Char)
    (ho : ¬ c = o) (hc : ¬ c = cl) : fmbBump cs o cl false count i c = .ok (count, i) := by
  unfold fmbBump
  rw [if_neg ho, if_neg hc]

theorem fmbBump_false_open (cs : List Char) (o cl : Char) (count : Int) (i : Nat) :
    fmbBump cs o cl false count i o = .ok (count + 1, i) := by
  unfold fmbBump
  simp

theorem fmbBump_false_close (cs : List Char) (o cl : Char) (count : Int) (i : Nat)
    (hne : ¬ cl = o) : fmbBump cs o cl false count i cl = .ok (count - 1, i) := by
  unfold fmbBump
  rw [if_neg hne, if_pos rfl]
  simp

/-- The bodies C2 quantifies over (formalising "balanced brackets and no
unescaped string literals"): built from characters that are none of
`(`, `)`, `"`, `'`, `\`, from escape pairs, and from properly nested
parenthesised groups. -/
inductive BalancedBody : List Char → Prop where
  | nil : BalancedBody []
  | plain (c : Char) (rest : List Char) :
      ¬ (c = '(' ∨ c = ')' ∨ c = '"' ∨ c = squote ∨ c = '\\') →
      BalancedBody rest → BalancedBody (c :: rest)
  | esc (c : Char) (rest : List Char) : BalancedBody rest → BalancedBody ('\\' :: c :: rest)
  | paren (b1 b2 : List Char) : BalancedBody b1 → BalancedBody b2 →
      BalancedBody ('(' :: b1 ++ ')' :: b2)

theorem fmbLoop_balanced {b : List Char} (hb : BalancedBody b) :
    ∀ (pre suf : List Char) (k : Int), 1 ≤ k →
      fmbLoop (pre ++ (b ++ suf)) '(' ')' false false k pre.length =
        fmbLoop (pre ++ (b ++ suf)) '(' ')' false false k (pre.length + b.length) := by
  induction hb with
  | nil =>
    intro pre suf k hk
    simp
  | plain c rest hc hrest ih =>
    intro pre suf k hk
    push_neg at hc
    obtain ⟨hop, hcl, hdq, hsq, hbs⟩ := hc
    have hget : (pre ++ ((c :: rest) ++ suf))[pre.length]? = some c := by
      rw [show (c :: rest) ++ suf = c :: (rest ++ suf) from rfl]
      exact getElem?_append_first pre c (rest ++ suf)
    obtain ⟨hlt, hgc⟩ := List.getElem?_eq_some.mp hget
    have hstep : fmbLoop (pre ++ ((c :: rest) ++ suf)) '(' ')' false false k pre.length =
        fmbLoop (pre ++ ((c :: rest) ++ suf)) '(' ')' false false k (pre.length + 1) := by
      apply fmbLoop_eq_bump_next hlt
      · rw [hgc]; exact hbs
      · rw [hgc]
        intro hx
        rcases hx.2 with h2 | h2
        · exact hsq h2
        · exact hdq h2
      · rw [hgc]
        exact fmbBump_false_other _ '(' ')' k pre.length c hop hcl
      · omega
    rw [hstep]
    have hre : pre ++ ((c :: rest) ++ suf) = (pre ++ [c]) ++ (rest ++ suf) := by simp
    rw [hre]
    rw [show pre.length + 1 = (pre ++ [c]).length from by simp]
    rw [show pre.length + (c :: rest).length = (pre ++ [c]).length + rest.length from by
      simp
      omega]
    exact ih (pre ++ [c]) suf k hk
  | esc c rest hrest ih =>
    intro pre suf k hk
    have hget : (pre ++ (('\\' :: c :: rest) ++ suf))[pre.length]? = some '\\' := by
      rw [show ('\\' :: c :: rest) ++ suf = '\\' :: (c :: rest ++ suf) from rfl]
      exact getElem?_append_first pre '\\' (c :: rest ++ suf)
    obtain ⟨hlt, hgc⟩ := List.getElem?_eq_some.mp hget
    have hstep := @fmbLoop_eq_bs (pre ++ (('\\' :: c :: rest) ++ suf)) '(' ')' false false
      k pre.length hlt hgc
    rw [hstep]
    have hre : pre ++ (('\\' :: c :: rest) ++ suf) = (pre ++ ['\\', c]) ++ (rest ++ suf) := by
      simp
    rw [hre]
    rw [show pre.length + 2 = (pre ++ ['\\', c]).length from by simp]
    rw [show pre.length + ('\\' :: c :: rest).length =
      (pre ++ ['\\', c]).length + rest.length from by simp; omega]
    exact ih (pre ++ ['\\', c]) suf k hk
  | paren b1 b2 h1 h2 ih1 ih2 =>
    intro pre suf k hk
    have hshape : ('(' :: b1 ++ ')' :: b2) ++ suf = '(' :: (b1 ++ (')' :: (b2 ++ suf))) := by
      simp
    rw [hshape]
    have hget : (pre ++ ('(' :: (b1 ++ (')' :: (b2 ++ suf)))))[pre.length]? = some '(' :=
      getElem?_append_first pre '(' (b1 ++ (')' :: (b2 ++ suf)))
    obtain ⟨hlt, hgc⟩ := List.getElem?_eq_some.mp hget
    have hstep : fmbLoop (pre ++ ('(' :: (b1 ++ (')' :: (b2 ++ suf))))) '(' ')' false false
        k pre.length =
        fmbLoop (pre ++ ('(' :: (b1 ++ (')' :: (b2 ++ suf))))) '(' ')' false false
          (k + 1) (pre.length + 1) := by
      apply fmbLoop_eq_bump_next hlt
      · rw [hgc]; decide
      · rw [hgc]
        intro hx
        rcases hx.2 with h3 | h3
        · exact absurd h3 (by decide)
        · exact absurd h3 (by decide)
      · rw [hgc]
        exact fmbBump_false_open _ '(' ')' k pre.length
      · omega
    rw [hstep]
    have hre1 : pre ++ ('(' :: (b1 ++ (')' :: (b2 ++ suf)))) =
        (pre ++ ['(']) ++ (b1 ++ (')' :: (b2 ++ suf))) := by simp
    rw [hre1]
    rw [show pre.length + 1 = (pre ++ ['(']).length from by simp]
    rw [ih1 (pre ++ ['(']) (')' :: (b2 ++ suf)) (k + 1) (by omega)]
    have hget2 : ((pre ++ ['(']) ++ (b1 ++ (')' :: (b2 ++ suf))))[(pre ++ ['(']).length +
        b1.length]? = some ')' := by
      rw [show (pre ++ ['(']) ++ (b1 ++ (')' :: (b2 ++ suf))) =
        ((pre ++ ['(']) ++ b1) ++ (')' :: (b2 ++ suf)) from by simp]
      rw [show (pre ++ ['(']).length + b1.length = ((pre ++ ['(']) ++ b1).length from by
        simp only [List.length_append, List.length_cons, List.length_nil]]
      exact getElem?_append_first ((pre ++ ['(']) ++ b1) ')' (b2 ++ suf)
    obtain ⟨hlt2, hgc2⟩ := List.getElem?_eq_some.mp hget2
    have hstep2 : fmbLoop ((pre ++ ['(']) ++ (b1 ++ (')' :: (b2 ++ suf)))) '(' ')' false false
        (k + 1) ((pre ++ ['(']).length + b1.length) =
        fmbLoop ((pre ++ ['(']) ++ (b1 ++ (')' :: (b2 ++ suf)))) '(' ')' false false
          k ((pre ++ ['(']).length + b1.length + 1) := by
      have hbump : fmbBump ((pre ++ ['(']) ++ (b1 ++ (')' :: (b2 ++ suf)))) '(' ')' false
          (k + 1) ((pre ++ ['(']).length + b1.length)
          ((pre ++ ['(']) ++ (b1 ++ (')' :: (b2 ++ suf))))[(pre ++ ['(']).length + b1.length] =
          .ok (k, (pre ++ ['(']).length + b1.length) := by
        rw [hgc2]
        have := fmbBump_false_close ((pre ++ ['(']) ++ (b1 ++ (')' :: (b2 ++ suf)))) '(' ')'
          (k + 1) ((pre ++ ['(']).length + b1.length) (by decide)
        rw [this]
        norm_num
      apply fmbLoop_eq_bump_next hlt2
      · rw [hgc2]; decide
      · rw [hgc2]
        intro hx
        rcases hx.2 with h3 | h3
        · exact absurd h3 (by decide)
        · exact absurd h3 (by decide)
      · exact hbump
      · omega
    rw [hstep2]
    have hre2 : (pre ++ ['(']) ++ (b1 ++ (')' :: (b2 ++ suf))) =
        ((pre ++ ['(']) ++ b1 ++ [')']) ++ (b2 ++ suf) := by simp
    rw [hre2]
    rw [show (pre ++ ['(']).length + b1.length + 1 =
      ((pre ++ ['(']) ++ b1 ++ [')']).length from by
      simp only [List.length_append, List.length_cons, List.length_nil]]
    rw [ih2 ((pre ++ ['(']) ++ b1 ++ [')']) suf k hk]
    congr 1
    simp
    omega

end Pyndoc

namespace Pyndoc

/-! ### Claim theorems -/

set_option maxRecDepth 200000 in
unseal pyReplace collapseNewlines readCodeLoop1 readCodeLoop2 readCodeLoop3 readMathLoop1
  readMathLoop2 findStringEndLoop fmbLoop macroCollect rawMacroArgs commentEnd preprocess
  preprocessLoop driverStep readPyndocMdFile readPyndocConditionalMdFile in
/-- C4: preprocessing `"Value: %x;"` — a single-percent identifier macro
with a trailing `;`, no format specifier, no raw or double markers — yields,
for every target format, exactly `Value: `` x ``{.py .quiet}`: an inline
code span whose code is the bare `x` with class list exactly `.py .quiet`
and no `print` wrapper anywhere in the output (the `;` marks it quiet). -/
theorem C4_quiet_macro_span (fmt : Option (List Char)) :
    preprocess [] 0 "Value: %x;".toList fmt =
      .ok ("Value: `` x ``".toList ++ [lbrace] ++ ".py .quiet".toList ++ [rbrace]) ∧
    ¬ listIsSub "print".toList
      ("Value: `` x ``".toList ++ [lbrace] ++ ".py .quiet".toList ++ [rbrace]) = true := by
  constructor
  · rfl
  · decide

set_option maxRecDepth 200000 in
unseal pyReplace collapseNewlines readCodeLoop1 readCodeLoop2 readCodeLoop3 readMathLoop1
  readMathLoop2 findStringEndLoop fmbLoop macroCollect rawMacroArgs commentEnd preprocess
  preprocessLoop driverStep readPyndocMdFile readPyndocConditionalMdFile in
/-- C5 counterexample: with the cursor on the `~` of a tilde fence, the
driver copies a single character — `driverStep` returns `(1, "~")` — whereas
`read_code` at the same position would consume the whole fence as one span
of 11 characters.  End to end, the `%x;` inside a tilde fence is
macro-expanded, while the same document with backtick fences passes through
unchanged. -/
theorem C5_counterexample :
    driverStep [] 0 "~~~\n%x;\n~~~".toList none 0 = .ok (1, ['~']) ∧
    readCode "~~~\n%x;\n~~~".toList 0 = .ok (11, "~~~\n%x;\n~~~".toList) ∧
    ¬ ((1 : Int), (['~'] : List Char)) = (11, "~~~\n%x;\n~~~".toList) ∧
    preprocess [] 0 "~~~\n%x;\n~~~".toList none =
      .ok ("~~~\n\n```".toList ++ [lbrace] ++ ".py .quiet".toList ++ [rbrace] ++
        "\nx\n```\n\n~~~".toList) ∧
    preprocess [] 0 "```\n%x;\n```".toList none = .ok "```\n%x;\n```".toList := by
  refine ⟨rfl, rfl, by decide, rfl, rfl⟩

set_option maxRecDepth 200000 in
unseal pyReplace collapseNewlines readCodeLoop1 readCodeLoop2 readCodeLoop3 readMathLoop1
  readMathLoop2 findStringEndLoop fmbLoop macroCollect rawMacroArgs commentEnd preprocess
  preprocessLoop driverStep readPyndocMdFile readPyndocConditionalMdFile in
/-- C9: `preprocess` fails with an uncaught out-of-bounds string index — not
a reported parse error — on these inputs: a document ending in exactly two
backticks (`read_code` reads `contents[start + 2]` past the end, line 108),
and an unterminated quote as the last character of a bracket-matched text
(`find_string_end` reads `contents[start + 1]` past the end, line 214). -/
theorem C9_index_errors :
    readCode "``".toList 0 = .error .indexError ∧
    preprocess [] 0 "``".toList none = .error .indexError ∧
    findStringEnd "%(\"".toList 2 = .error .indexError ∧
    preprocess [] 0 "%(\"".toList none = .error .indexError := by
  refine ⟨rfl, rfl, rfl, rfl⟩

theorem startsWithAt_head_ne (cs : List Char) (i : Nat) (c p : Char) (pat : List Char)
    (h : cs[i]? = some c) (hne : ¬ c = p) : startsWithAt cs i (p :: pat) = false := by
  unfold startsWithAt
  have hlt : i < cs.length := (List.getElem?_eq_some.mp h).1
  rw [List.drop_eq_getElem_cons hlt]
  have hc : cs[i] = c := by
    have := (List.getElem?_eq_some.mp h).2
    exact this
  rw [hc]
  simp [List.isPrefixOf]
  intro hcp
  exact absurd hcp.symm hne

/-- C5 amended: the driver dispatches to `read_code` only at a backtick; no
driver branch tests for a tilde, so at a tilde the character is copied
verbatim and the cursor advances by one — `read_code`'s tilde handling is
unreachable from the driver, and a tilde fence is not consumed as a single
code span. -/
theorem C5_amended (fs : List (List Char × List Char)) (depth : Nat) (cs : List Char)
    (fmt : Option (List Char)) (i : Nat) :
    (cs[i]? = some '`' → driverStep fs depth cs fmt i = readCode cs i) ∧
    (cs[i]? = some '~' → driverStep fs depth cs fmt i = .ok (1, ['~'])) := by
  constructor
  · intro h
    rw [driverStep.eq_def, pyGetNat_of_getElem? h]
    have h1 : startsWithAt cs i ('<' :: "!--".toList) = false :=
      startsWithAt_head_ne cs i '`' '<' "!--".toList h (by decide)
    simp only [show "<!--".toList = '<' :: "!--".toList from rfl, h1]
    simp
  · intro h
    rw [driverStep.eq_def, pyGetNat_of_getElem? h]
    have h1 : startsWithAt cs i ('<' :: "!--".toList) = false :=
      startsWithAt_head_ne cs i '~' '<' "!--".toList h (by decide)
    have h2 : startsWithAt cs i ('%' :: [lbrace]) = false :=
      startsWithAt_head_ne cs i '~' '%' [lbrace] h (by decide)
    have h3 : startsWithAt cs i ('%' :: "%%py\x7b".toList) = false :=
      startsWithAt_head_ne cs i '~' '%' "%%py\x7b".toList h (by decide)
    have h4 : startsWithAt cs i ('%' :: "%%mdifformat".toList) = false :=
      startsWithAt_head_ne cs i '~' '%' "%%mdifformat".toList h (by decide)
    have h5 : startsWithAt cs i ('%' :: "%%md".toList) = false :=
      startsWithAt_head_ne cs i '~' '%' "%%md".toList h (by decide)
    have h6 : matchesMacroStart cs i = false := by
      simp [matchesMacroStart, pctWordFrom, h]
    have h7 : matchesExprStart cs i = false := by
      simp [matchesExprStart, pctParenFrom, h]
    simp only [show "<!--".toList = '<' :: "!--".toList from rfl,
      show "%\x7b".toList = '%' :: [lbrace] from rfl,
      show "%%%py\x7b".toList = '%' :: "%%py\x7b".toList from rfl,
      show "%%%mdifformat".toList = '%' :: "%%mdifformat".toList from rfl,
      show "%%%md".toList = '%' :: "%%md".toList from rfl,
      h1, h2, h3, h4, h5, h6, h7]
    simp

/-- Witness for C5's amended statement: the concrete tilde and backtick
dispatch behaviour at the start of small documents. -/
theorem C5_amended_witness :
    driverStep [] 0 "~~~".toList none 0 = .ok (1, ['~']) ∧
    driverStep [] 0 "`a`".toList none 0 = readCode "`a`".toList 0 :=
  ⟨(C5_amended [] 0 "~~~".toList none 0).2 (by rfl),
   (C5_amended [] 0 "`a`".toList none 0).1 (by rfl)⟩

/-- The trigger-free documents C1 quantifies over: none of the characters
`%`, `"`, `'`, `\`, `$`, backtick, `~` occurs, nor the comment opener
`<!--`. -/
def noTriggerChars (cs : List Char) : Bool :=
  cs.all (fun c =>
    ¬ (c = '%' ∨ c = '"' ∨ c = squote ∨ c = '\\' ∨ c = '$' ∨ c = '`' ∨ c = '~')) &&
  ¬ listIsSub "<!--".toList cs

theorem noTriggerChars_facts {cs : List Char} (h : noTriggerChars cs = true) :
    (∀ c ∈ cs, ¬ c = '%' ∧ ¬ c = '"' ∧ ¬ c = squote ∧ ¬ c = '\\' ∧ ¬ c = '$' ∧
      ¬ c = '`' ∧ ¬ c = '~') ∧
    ¬ ("<!--".toList <:+: cs) := by
  unfold noTriggerChars listIsSub at h
  simp only [Bool.and_eq_true, List.all_eq_true, decide_eq_true_eq, Bool.not_eq_true',
    decide_eq_false_iff_not] at h
  obtain ⟨h1, h2⟩ := h
  refine ⟨?_, h2⟩
  intro c hc
  have := h1 c hc
  push_neg at this
  exact this

theorem infix_of_startsWithAt {cs : List Char} {i : Nat} {pat : List Char}
    (h : startsWithAt cs i pat = true) : pat <:+: cs := by
  unfold startsWithAt at h
  have hpre : pat <+: cs.drop i := by
    exact List.isPrefixOf_iff_prefix.mp h
  have hsuf : cs.drop i <:+ cs := List.drop_suffix i cs
  exact hpre.isInfix.trans hsuf.isInfix

theorem driverStep_plain (fs : List (List Char × List Char)) (d : Nat) (cs : List Char)
    (fmt : Option (List Char)) (i : Nat) (c : Char) (hg : cs[i]? = some c)
    (hc : ¬ c = '%' ∧ ¬ c = '"' ∧ ¬ c = squote ∧ ¬ c = '\\' ∧ ¬ c = '$' ∧
      ¬ c = '`' ∧ ¬ c = '~')
    (hnopct : ∀ (j : Nat) (x : Char), cs[j]? = some x → ¬ x = '%')
    (hni : ¬ ("<!--".toList <:+: cs)) :
    driverStep fs d cs fmt i = .ok (1, [c]) := by
  obtain ⟨hpc, hdq, hsq, hbs, hdl, hbt, htl⟩ := hc
  have h1 : startsWithAt cs i "<!--".toList = false := by
    cases hsw : startsWithAt cs i "<!--".toList
    · rfl
    · exact absurd (infix_of_startsWithAt hsw) hni
  have hpw : ∀ j, pctWordFrom cs j = false := by
    intro j
    unfold pctWordFrom
    cases hx : cs[j]? with
    | none => simp
    | some x =>
      rw [decide_eq_false (by
        intro hxx
        injection hxx with hxx
        exact hnopct j x hx hxx)]
      simp
  have hpp : ∀ j, pctParenFrom cs j = false := by
    intro j
    unfold pctParenFrom
    cases hx : cs[j]? with
    | none => simp
    | some x =>
      rw [decide_eq_false (by
        intro hxx
        injection hxx with hxx
        exact hnopct j x hx hxx)]
      simp
  have h6 : matchesMacroStart cs i = false := by
    unfold matchesMacroStart
    rw [hpw i, hpw (i + 1)]
    simp
  have h7 : matchesExprStart cs i = false := by
    unfold matchesExprStart
    rw [hpp i, hpp (i + 1)]
    simp
  have h2 : startsWithAt cs i ('%' :: [lbrace]) = false :=
    startsWithAt_head_ne cs i c '%' [lbrace] hg hpc
  have h3 : startsWithAt cs i ('%' :: "%%py\x7b".toList) = false :=
    startsWithAt_head_ne cs i c '%' "%%py\x7b".toList hg hpc
  have h4 : startsWithAt cs i ('%' :: "%%mdifformat".toList) = false :=
    startsWithAt_head_ne cs i c '%' "%%mdifformat".toList hg hpc
  have h5 : startsWithAt cs i ('%' :: "%%md".toList) = false :=
    startsWithAt_head_ne cs i c '%' "%%md".toList hg hpc
  rw [driverStep.eq_def, pyGetNat_of_getElem? hg]
  simp only [show "%\x7b".toList = '%' :: [lbrace] from rfl,
    show "%%%py\x7b".toList = '%' :: "%%py\x7b".toList from rfl,
    show "%%%mdifformat".toList = '%' :: "%%mdifformat".toList from rfl,
    show "%%%md".toList = '%' :: "%%md".toList from rfl]
  simp only [h1, h2, h3, h4, h5, h6, h7]
  simp [hbs, hbt, hdl]

theorem slice_append_drop (cs : List Char) (i sz : Nat) (h : i + sz ≤ cs.length) :
    pySliceNN cs i (i + sz) ++ cs.drop (i + sz) = cs.drop i := by
  unfold pySliceNN
  conv_rhs => rw [show cs = cs.take (i + sz) ++ cs.drop (i + sz) from
    (List.take_append_drop _ cs).symm]
  rw [List.drop_append_of_le_length (by
    simp only [List.length_take]
    omega)]

theorem preprocessLoop_noTrigger (fs : List (List Char × List Char)) (d : Nat)
    (cs : List Char) (fmt : Option (List Char)) (i chunkIdx : Nat) (acc : List Char)
    (h : noTriggerChars cs = true) :
    preprocessLoop fs d cs fmt i chunkIdx acc = .ok (acc ++ cs.drop i) := by
  obtain ⟨hchars, hni⟩ := noTriggerChars_facts h
  rw [preprocessLoop.eq_def]
  split
  next hlt =>
    split
    next idx2 sz heq =>
      have hsz := tryChunks_some heq
      rw [preprocessLoop_noTrigger fs d cs fmt (i + sz) idx2 _ h]
      rw [List.append_assoc, slice_append_drop cs i sz (by omega)]
    next idx2 heq =>
      have hc : cs[i]? = some (cs.get ⟨i, hlt⟩) := List.getElem?_eq_getElem hlt
      have hfacts := hchars _ (List.getElem?_mem hc)
      have hnopct : ∀ (j : Nat) (x : Char), cs[j]? = some x → ¬ x = '%' := by
        intro j x hx hxx
        exact ((hchars x (List.getElem?_mem hx)).1) hxx
      rw [driverStep_plain fs d cs fmt i _ hc hfacts hnopct hni]
      simp only []
      rw [dif_pos (show (0 : Int) < 1 from by omega)]
      rw [preprocessLoop_noTrigger fs d cs fmt (i + (1 : Int).toNat) idx2 _ h]
      rw [show ((1 : Int).toNat) = 1 from rfl]
      rw [List.append_assoc]
      congr 1
      congr 1
      rw [List.drop_eq_getElem_cons hlt]
      rfl
  next hge =>
    rw [List.drop_eq_nil_of_le (by omega), List.append_nil]
termination_by cs.length - i
decreasing_by
  all_goals omega

/-- C1: a document containing none of the trigger characters
(`%`, `"`, `'`, `\`, `$`, backtick, `~`) and no `<!--` passes through
`preprocess` unchanged except that runs of three or more newlines are
collapsed to exactly two; the collapse equals Python's
`re.sub(r"\n\n+", "\n\n", text)`. -/
theorem C1_plain_passthrough (fs : List (List Char × List Char)) (d : Nat)
    (cs : List Char) (fmt : Option (List Char)) (h : noTriggerChars cs = true) :
    preprocess fs d cs fmt = .ok (collapseNewlines cs) ∧
    collapseNewlines cs = specCollapseNewlines cs := by
  constructor
  · rw [preprocess.eq_def]
    rw [preprocessLoop_noTrigger fs d cs fmt 0 0 [] h]
    rfl
  · exact collapseNewlines_eq_spec cs

set_option maxRecDepth 200000 in
unseal collapseNewlines in
/-- Witness for C1 at the concrete document "hello\n\n\n\nworld": preprocess
returns it with the newline run collapsed to two. -/
theorem C1_plain_passthrough_witness :
    preprocess [] 0 "hello\n\n\n\nworld".toList none = .ok "hello\n\nworld".toList ∧
    collapseNewlines "hello\n\n\n\nworld".toList =
      specCollapseNewlines "hello\n\n\n\nworld".toList :=
  have hh := C1_plain_passthrough [] 0 "hello\n\n\n\nworld".toList none (by decide)
  ⟨hh.1.trans (by rfl), hh.2⟩

/-- C2: bracket matcher round-trip — for every body with balanced brackets
and no unescaped string literals, `find_matching_bracket` on
`"(" + body + ")"` at index 0 returns `len(body) + 1`, the index of the
final `)`. -/
theorem C2_bracket_roundtrip (body : List Char) (hb : BalancedBody body) :
    findMatchingBracket ('(' :: body ++ [')']) 0 false false = .ok (body.length + 1) := by
  unfold findMatchingBracket
  rw [pyGetNat_of_getElem? (show ('(' :: body ++ [')'])[0]? = some '(' from by simp)]
  dsimp only
  rw [show bracketMap '(' = some ')' from by decide]
  dsimp only
  have hbal := fmbLoop_balanced hb ['('] [')'] 1 (by omega)
  rw [show ('(' :: body ++ [')'] : List Char) = ['('] ++ (body ++ [')']) from rfl]
  rw [show (0 + 1 : Nat) = (['('] : List Char).length from rfl]
  rw [hbal]
  have hget : ((['('] : List Char) ++ (body ++ [')']))[(['('] : List Char).length +
      body.length]? = some ')' := by
    rw [show ((['('] : List Char) ++ (body ++ [')'])) = ('(' :: body) ++ (')' :: []) from by
      simp]
    rw [show (['('] : List Char).length + body.length = ('(' :: body).length from by
      simp only [List.length_cons, List.length_nil]
      omega]
    exact getElem?_append_first ('(' :: body) ')' []
  obtain ⟨hlt, hgc⟩ := List.getElem?_eq_some.mp hget
  have hdone : fmbLoop ((['('] : List Char) ++ (body ++ [')'])) '(' ')' false false 1
      ((['('] : List Char).length + body.length) = .ok ((['('] : List Char).length +
        body.length) := by
    apply fmbLoop_eq_bump_done hlt
    · rw [hgc]; decide
    · rw [hgc]
      intro hx
      rcases hx.2 with h3 | h3
      · exact absurd h3 (by decide)
      · exact absurd h3 (by decide)
    · rw [hgc]
      have := fmbBump_false_close ((['('] : List Char) ++ (body ++ [')'])) '(' ')' 1
        ((['('] : List Char).length + body.length) (by decide)
      rw [this]
      norm_num
  rw [hdone]
  simp
  omega

/-- Witness for C2 at the concrete body `a(b)c`: the matching bracket of
`(a(b)c)` is found at index 6. -/
theorem C2_bracket_roundtrip_witness :
    BalancedBody "a(b)c".toList ∧
    findMatchingBracket ('(' :: "a(b)c".toList ++ [')']) 0 false false = .ok 6 := by
  have hb : BalancedBody "a(b)c".toList :=
    BalancedBody.plain 'a' ('(' :: ['b'] ++ ')' :: ['c']) (by decide)
      (BalancedBody.paren ['b'] ['c']
        (BalancedBody.plain 'b' [] (by decide) BalancedBody.nil)
        (BalancedBody.plain 'c' [] (by decide) BalancedBody.nil))
  exact ⟨hb, C2_bracket_roundtrip "a(b)c".toList hb⟩

/-- The doubled-brace argument texts C3 quantifies over (formalising
"delimited by doubled braces ... including any inner single braces"): no
quote or backslash characters, no doubled `{{`/`}}` pair inside, not
opening with `{` (which would merge into the opening `{{`) and not closing
with `}` (which would merge into the closing `}}`). -/
def rawArgOk (arg : List Char) : Bool :=
  (¬ arg[0]? = some lbrace) &&
  (¬ arg[arg.length - 1]? = some rbrace) &&
  (List.range arg.length).all (fun j =>
    match arg[j]? with
    | some c =>
      (¬ (c = '"' ∨ c = squote ∨ c = '\\')) &&
      (¬ c = lbrace || ¬ arg[j + 1]? = some lbrace) &&
      (¬ c = rbrace || ¬ arg[j + 1]? = some rbrace)
    | none => true)

theorem rawArgOk_facts {arg : List Char} (h : rawArgOk arg = true) :
    (¬ arg[0]? = some lbrace) ∧ (¬ arg[arg.length - 1]? = some rbrace) ∧
    (∀ j c, arg[j]? = some c →
      ¬ c = '"' ∧ ¬ c = squote ∧ ¬ c = '\\' ∧
      (c = lbrace → ¬ arg[j + 1]? = some lbrace) ∧
      (c = rbrace → ¬ arg[j + 1]? = some rbrace)) := by
  unfold rawArgOk at h
  simp only [Bool.and_eq_true, List.all_eq_true, List.mem_range, decide_eq_true_eq,
    Bool.or_eq_true, Bool.not_eq_true', decide_eq_false_iff_not] at h
  obtain ⟨⟨h0, hl⟩, hall⟩ := h
  refine ⟨h0, hl, ?_⟩
  intro j c hj
  have hjlt : j < arg.length := (List.getElem?_eq_some.mp hj).1
  have hthis := hall j hjlt
  rw [hj] at hthis
  simp only [Bool.and_eq_true, decide_eq_true_eq, Bool.or_eq_true, Bool.not_eq_true',
    decide_eq_false_iff_not] at hthis
  obtain ⟨⟨hq, hlb⟩, hrb⟩ := hthis
  push_neg at hq
  refine ⟨hq.1, hq.2.1, hq.2.2, ?_, ?_⟩
  · intro hc
    rcases hlb with h2 | h2
    · exact absurd hc h2
    · exact h2
  · intro hc
    rcases hrb with h2 | h2
    · exact absurd hc h2
    · exact h2

/-- C3: for every doubled-brace raw-macro argument, the text between the
doubled braces is extracted unmodified, inner single braces included: the
raw-macro argument loop on `%f{{arg}}`, entered at the opening brace
(position 2), collects exactly `[(arg, raw)]` and stops after the closing
doubled brace. -/
theorem C3_raw_double_brace (arg : List Char) (h : rawArgOk arg = true) :
    rawMacroArgs ("%f".toList ++ [lbrace, lbrace] ++ arg ++ [rbrace, rbrace]) []
      (some lbrace) 2 = .ok ([(arg, true)], arg.length + 6) := by
  obtain ⟨h0, hlast, hall⟩ := rawArgOk_facts h
  have hcs : "%f".toList ++ [lbrace, lbrace] ++ arg ++ [rbrace, rbrace] =
      '%' :: 'f' :: lbrace :: lbrace :: (arg ++ [rbrace, rbrace]) := by
    simp
  rw [hcs]
  set cs := '%' :: 'f' :: lbrace :: lbrace :: (arg ++ [rbrace, rbrace]) with hcsdef
  have hlen : cs.length = arg.length + 6 := by simp [hcsdef]
  have htail : ∀ j, cs[4 + j]? = (arg ++ [rbrace, rbrace])[j]? := by
    intro j
    rw [hcsdef, show 4 + j = j + 1 + 1 + 1 + 1 from by omega]
    simp only [List.getElem?_cons_succ]
  have hargpos : ∀ j, j < arg.length → cs[4 + j]? = arg[j]? := by
    intro j hj
    rw [htail j, List.getElem?_append, if_pos hj]
  have hclose1 : cs[4 + arg.length]? = some rbrace := by
    rw [htail arg.length, List.getElem?_append_right (Nat.le_refl _)]
    simp
  have hclose2 : cs[4 + arg.length + 1]? = some rbrace := by
    rw [show 4 + arg.length + 1 = 4 + (arg.length + 1) from by omega, htail (arg.length + 1),
      List.getElem?_append_right (by omega)]
    simp
  have h2 : cs[2]? = some lbrace := by simp [hcsdef]
  have h3 : cs[3]? = some lbrace := by simp [hcsdef]
  -- every position from 3 to 3 + arg.length is a no-op for the scan
  have hnoop : ∀ k, 3 ≤ k → k < 3 + (arg.length + 1) → dblNoopAt cs k := by
    intro k hk1 hk2
    by_cases hk3 : k = 3
    · subst hk3
      cases harg : arg[0]? with
      | none =>
        have hempty : arg = [] := by
          cases arg with
          | nil => rfl
          | cons x xs => simp at harg
        refine ⟨lbrace, rbrace, h3, ?_, by decide, by decide, by decide, ?_, by decide⟩
        · rw [show (3 + 1 : Nat) = 4 + 0 from rfl, htail 0, hempty]
          simp
        · intro _
          decide
      | some c0 =>
        have hlt0 : 0 < arg.length := (List.getElem?_eq_some.mp harg).1
        refine ⟨lbrace, c0, h3, ?_, by decide, by decide, by decide, ?_, ?_⟩
        · rw [show (3 + 1 : Nat) = 4 + 0 from rfl, hargpos 0 hlt0]
          exact harg
        · intro _
          intro hcc
          rw [hcc] at harg
          exact h0 harg
        · intro hx
          exact absurd hx (by decide)
    · have hj : k = 4 + (k - 4) := by omega
      have hjlt : k - 4 < arg.length := by omega
      cases harg : arg[k - 4]? with
      | none =>
        have hcontra := List.getElem?_eq_getElem hjlt
        rw [harg] at hcontra
        cases hcontra
      | some c =>
        obtain ⟨hq1, hq2, hq3, hq4, hq5⟩ := hall (k - 4) c harg
        by_cases hnext : k - 4 + 1 < arg.length
        · cases hargn : arg[k - 4 + 1]? with
          | none =>
            have hcontra := List.getElem?_eq_getElem hnext
            rw [hargn] at hcontra
            cases hcontra
          | some cn =>
            refine ⟨c, cn, by rw [hj, hargpos (k - 4) hjlt]; exact harg, ?_, hq3, hq2, hq1, ?_, ?_⟩
            · rw [show k + 1 = 4 + (k - 4 + 1) from by omega, hargpos (k - 4 + 1) hnext]
              exact hargn
            · intro hc hcn
              rw [hcn] at hargn
              exact (hq4 hc) hargn
            · intro hc hcn
              rw [hcn] at hargn
              exact (hq5 hc) hargn
        · have hlaststep : k - 4 + 1 = arg.length := by omega
          refine ⟨c, rbrace, by rw [hj, hargpos (k - 4) hjlt]; exact harg, ?_, hq3, hq2, hq1, ?_, ?_⟩
          · rw [show k + 1 = 4 + arg.length from by omega]
            exact hclose1
          · intro _
            decide
          · intro hc _
            rw [hc] at harg
            have : k - 4 = arg.length - 1 := by omega
            rw [this] at harg
            exact hlast harg
  -- the scan from 3 reaches 4 + arg.length without changing the count
  have hscan : fmbLoop cs lbrace rbrace false true 1 3 =
      fmbLoop cs lbrace rbrace false true 1 (3 + (arg.length + 1)) :=
    fmbLoop_double_noop cs (arg.length + 1) 3 1 (by omega) hnoop
  -- the closing doubled brace returns 5 + arg.length
  have hcloselt : 4 + arg.length < cs.length := by omega
  have hclosee : cs[4 + arg.length] = rbrace := by
    obtain ⟨hh1, hh2⟩ := List.getElem?_eq_some.mp hclose1
    exact hh2
  have hdone : fmbLoop cs lbrace rbrace false true 1 (4 + arg.length) =
      .ok (4 + arg.length + 1) := by
    apply fmbLoop_eq_bump_done hcloselt
    · rw [hclosee]; decide
    · rw [hclosee]
      intro hx
      rcases hx.2 with hy | hy
      · exact absurd hy (by decide)
      · exact absurd hy (by decide)
    · rw [hclosee]
      have := fmbBump_close_double cs lbrace rbrace 1 (4 + arg.length) rbrace rfl
        (by decide) hclose2
      rw [this]
      norm_num
  have hfmb : findMatchingBracket cs 2 false (lbrace == lbrace) = .ok (4 + arg.length + 1) := by
    rw [show (lbrace == lbrace) = true from rfl]
    unfold findMatchingBracket
    rw [pyGetNat_of_getElem? h2]
    dsimp only
    rw [show bracketMap lbrace = some rbrace from by decide]
    dsimp only
    rw [pyGetNat_of_getElem? h3]
    dsimp only
    rw [if_neg (show ¬ ¬ lbrace = lbrace from by simp)]
    rw [hscan, show 3 + (arg.length + 1) = 4 + arg.length from by omega, hdone]
    simp
  have hstep := rawMacroArgs_step cs [] 2 lbrace (4 + arg.length + 1)
    (by omega) h3 hfmb
  rw [hstep]
  simp only [beq_self_eq_true, if_true]
  have hslice : pySliceNN cs 3 (4 + arg.length + 1) = lbrace :: (arg ++ [rbrace]) := by
    have hmid : cs = ['%', 'f', lbrace] ++ ((lbrace :: (arg ++ [rbrace])) ++ [rbrace]) := by
      simp [hcsdef]
    rw [hmid]
    have := pySliceNN_mid ['%', 'f', lbrace] (lbrace :: (arg ++ [rbrace])) [rbrace]
    simp only [List.length_cons, List.length_append, List.length_singleton] at this
    rw [show (4 + arg.length + 1) = ['%', 'f', lbrace].length +
      (lbrace :: (arg ++ [rbrace])).length from by simp; omega] at *
    convert this using 2
    simp
  rw [hslice, pySlice_inner lbrace rbrace arg]
  rw [dif_neg (by omega : ¬ (4 + arg.length + 1 + 1 < cs.length))]
  rw [rawMacroArgs_end cs ([] ++ [(arg, true)]) none (4 + arg.length + 1 + 1)
    (by intro hx; cases hx.1)]
  simp only [List.nil_append]
  rw [show 4 + arg.length + 1 + 1 = arg.length + 6 from by omega]

/-- Witness for C3 at the claim's concrete input `%f{{a{b}c}}`: the raw
argument extracted is exactly `a{b}c`, inner single braces included. -/
theorem C3_raw_double_brace_witness :
    rawArgOk "a\x7bb\x7dc".toList = true ∧
    rawMacroArgs "%f\x7b\x7ba\x7bb\x7dc\x7d\x7d".toList [] (some lbrace) 2 =
      .ok ([("a\x7bb\x7dc".toList, true)], 11) := by
  refine ⟨by decide, ?_⟩
  exact C3_raw_double_brace "a\x7bb\x7dc".toList (by decide)

/-- The record shape C7 claims for the persisted port-discovery metadata:
a `port` integer together with a `format` string. -/
def hasPortAndFormat (o : PyObj) : Prop :=
  (∃ n, o.lookup "port" = some (.int n)) ∧ (∃ s, o.lookup "format" = some (.str s))

/-- C7 counterexample: the record `save_metadata` persists when the server
starts (here on port 5000) — and likewise the record `get_or_start_server`
writes — has no `format` key at all. -/
theorem C7_counterexample :
    ¬ hasPortAndFormat (saveMetadata 5000) ∧
    (saveMetadata 5000).lookup "format" = none ∧
    (getOrStartServerMetadata 5000).lookup "format" = none := by
  refine ⟨?_, rfl, rfl⟩
  intro h
  rcases h.2 with ⟨s, hs⟩
  simp [saveMetadata, PyObj.lookup, List.lookup] at hs

/-- C7 amended: the metadata record written by the process that starts the
server contains the `port` integer and nothing else — no `format` key; the
`format` string is only written to the metadata file afterwards, by the main
CLI, together with the port. -/
theorem C7_amended (port : Int) (fmt : String) :
    (saveMetadata port).lookup "port" = some (.int port) ∧
    (saveMetadata port).lookup "format" = none ∧
    (getOrStartServerMetadata port).lookup "port" = some (.int port) ∧
    (getOrStartServerMetadata port).lookup "format" = none ∧
    (mainMetadata fmt port).lookup "port" = some (.int port) ∧
    (mainMetadata fmt port).lookup "format" = some (.str fmt) := by
  refine ⟨rfl, rfl, rfl, rfl, ?_, rfl⟩
  simp [mainMetadata, PyObj.lookup, List.lookup]

/-- C8: for every `ping` request, the handler sends exactly one response,
the JSON object `{"type": "ping", "message": "pong"}` (the code emits the
keys in the order `message`, `type`; as a JSON object the two spellings are
the same, witnessed by the permutation), and keeps listening. -/
theorem C8_ping_response (message : PyObj) :
    (pingHandler message).1 = [sendResponseJson (.str "pong") "ping"] ∧
    sendResponseJson (.str "pong") "ping" =
      [("message", PyVal.str "pong"), ("type", PyVal.str "ping")] ∧
    List.Perm [("message", PyVal.str "pong"), ("type", PyVal.str "ping")]
      [("type", PyVal.str "ping"), ("message", PyVal.str "pong")] ∧
    (pingHandler message).2 = true := by
  refine ⟨rfl, rfl, ?_, rfl⟩
  exact List.Perm.swap _ _ _

/-- C10: a request that is valid JSON but lacks a `type` field makes
`handle_client` raise `KeyError` while formatting the "Invalid message type"
response inside its `except KeyError` handler (the uncaught outcome of the
`try` body), after which the `finally` block closes the connection and dies
on the unbound `continue_listening`; no response of any kind is sent. -/
theorem C10_missing_type (fields : PyObj) (run : String → PyObj → List PyObj × Bool)
    (h : fields.lookup "type" = none) :
    handleClientBody fields run = .error .keyError ∧
    handleClient fields run = ⟨[], true, some .unboundLocalError, false⟩ := by
  constructor
  · unfold handleClientBody
    rw [h]
  · unfold handleClient handleClientBody
    rw [h]

/-- Witness for C10 at the concrete request `{"message": "hi"}`. -/
theorem C10_missing_type_witness :
    (([("message", PyVal.str "hi")] : PyObj).lookup "type" = none) ∧
    handleClient [("message", PyVal.str "hi")] (fun _ _ => ([], true)) =
      ⟨[], true, some .unboundLocalError, false⟩ :=
  ⟨by decide, (C10_missing_type [("message", PyVal.str "hi")] (fun _ _ => ([], true))
    (by decide)).2⟩

theorem bind_ok {α β : Type} (a : α) (f : α → Except Err β) :
    (Except.ok a : Except Err α) >>= f = f a := rfl

theorem bind_err {α β : Type} (e : Err) (f : α → Except Err β) :
    (Except.error e : Except Err α) >>= f = .error e := rfl

theorem pure_eq_ok {α : Type} (a : α) : (pure a : Except Err α) = .ok a := rfl

theorem noNT_ok {α : Type} (a : α) : noNT (Except.ok a : Except Err α) := trivial

theorem noNT_err {α : Type} {e : Err} (h : ¬ e = Err.nonTermination) :
    noNT (Except.error e : Except Err α) := h

theorem stepGood_ok {s : Int} {t : List Char} :
    stepGood (.ok (s, t)) ↔ 1 ≤ s := Iff.rfl

theorem stepGood_err {e : Err} :
    stepGood (.error e) ↔ ¬ e = Err.nonTermination := Iff.rfl

theorem deindentLine_noNT (indent : Nat) (line : List Char) :
    noNT (deindentLine indent line) := by
  unfold deindentLine
  split
  · split
    · exact noNT_ok _
    · exact noNT_err (by simp)
  · split
    · exact noNT_ok _
    · exact noNT_err (by simp)

theorem mapM_noNT {α β : Type} (f : α → Except Err β) (l : List α)
    (h : ∀ a ∈ l, noNT (f a)) : noNT (l.mapM f) := by
  induction l with
  | nil => exact noNT_ok _
  | cons a t ih =>
    rw [List.mapM_cons]
    refine noNT_bind (h a (by simp)) ?_
    intro b _
    refine noNT_bind (ih (fun x hx => h x (by simp [hx]))) ?_
    intro bs _
    exact noNT_ok _

theorem deindent_noNT (code : List Char) : noNT (deindent code) := by
  unfold deindent
  dsimp only
  split
  · exact noNT_ok _
  next l0 rest hl =>
    have h := mapM_noNT (deindentLine (l0.length - (pyLstrip l0).length)) (l0 :: rest)
      (fun a _ => deindentLine_noNT _ a)
    cases hm : (l0 :: rest).mapM (deindentLine (l0.length - (pyLstrip l0).length)) with
    | error e =>
      rw [hm] at h
      exact h
    | ok outLines =>
      exact noNT_ok _

theorem parseCondOptions_noNT (body : List Char) : noNT (parseCondOptions body) := by
  unfold parseCondOptions
  apply mapM_noNT
  intro o _
  split
  · exact noNT_ok _
  · exact noNT_err (by simp)

theorem pyGetLine_noNT (ls : List (List Char)) (i : Nat) : noNT (pyGetLine ls i) := by
  unfold pyGetLine
  cases ls[i]?
  · exact noNT_err (by simp)
  · exact noNT_ok _

theorem okGe_noNT {i i2 : Nat} (hle : i ≤ i2) (r : Except Err { j : Nat // i2 ≤ j })
    (h : noNT r) : noNT (okGe hle r) := by
  cases r with
  | error e => exact h
  | ok a =>
    obtain ⟨j, hj⟩ := a
    exact noNT_ok _

theorem findStringEndLoop_noNT (cs : List Char) (delimiter : Char) (isTriple : Bool)
    (i : Nat) : noNT (findStringEndLoop cs delimiter isTriple i) := by
  rw [findStringEndLoop.eq_def]
  split
  next h =>
    split
    · exact okGe_noNT _ _ (findStringEndLoop_noNT cs delimiter isTriple (i + 2))
    · split
      · split
        · exact noNT_ok _
        · split
          next e heq =>
            have hp := pyGetNat_noNT cs (i + 1)
            rw [heq] at hp
            exact hp
          next c1 heq =>
            split
            · split
              next e heq2 =>
                have hp := pyGetNat_noNT cs (i + 2)
                rw [heq2] at hp
                exact hp
              next c2 heq2 =>
                split
                · exact noNT_ok _
                · exact okGe_noNT _ _ (findStringEndLoop_noNT cs delimiter isTriple (i + 1))
            · exact okGe_noNT _ _ (findStringEndLoop_noNT cs delimiter isTriple (i + 1))
      · exact okGe_noNT _ _ (findStringEndLoop_noNT cs delimiter isTriple (i + 1))
  next h => exact noNT_err (by simp)
termination_by cs.length - i
decreasing_by
  all_goals omega

theorem findStringEnd_noNT (cs : List Char) (start : Nat) : noNT (findStringEnd cs start) := by
  unfold findStringEnd
  split
  next e hd =>
    have hp := pyGetNat_noNT cs start
    rw [hd] at hp
    exact hp
  next delimiter hd =>
    split
    next hlen => exact absurd (pyGetNat_ok hd).1 (by omega)
    next hlen =>
      split
      next e heq =>
        have hp := pyGetNat_noNT cs (start + 1)
        rw [heq] at hp
        exact hp
      next c1 heq =>
        split
        · split
          next e heq2 =>
            have hp := pyGetNat_noNT cs (start + 2)
            rw [heq2] at hp
            exact hp
          next c2 heq2 =>
            exact okGe_noNT _ _ (findStringEndLoop_noNT cs delimiter (c2 = delimiter) (start + 1))
        · exact okGe_noNT _ _ (findStringEndLoop_noNT cs delimiter false (start + 1))

theorem fmbBump_noNT (cs : List Char) (opening closing : Char) (isDouble : Bool)
    (count : Int) (i : Nat) (c : Char) :
    noNT (fmbBump cs opening closing isDouble count i c) := by
  unfold fmbBump
  split
  · split
    · split
      next e heq =>
        have hp := pyGetNat_noNT cs (i + 1)
        rw [heq] at hp
        exact hp
      next c1 heq => split <;> exact noNT_ok _
    · exact noNT_ok _
  · split
    · split
      · split
        next e heq =>
          have hp := pyGetNat_noNT cs (i + 1)
          rw [heq] at hp
          exact hp
        next c1 heq => split <;> exact noNT_ok _
      · exact noNT_ok _
    · exact noNT_ok _

theorem fmbLoop_noNT (cs : List Char) (opening closing : Char) (strict isDouble : Bool)
    (count : Int) (i : Nat) :
    noNT (fmbLoop cs opening closing strict isDouble count i) := by
  induction count, i using fmbLoop.induct cs opening closing strict isDouble with
  | case1 count i h hc ih =>
    rw [fmbLoop_eq_bs h hc]
    exact ih
  | case2 count i h hbs hq e hfs =>
    rw [fmbLoop_eq_str_err h hbs hq hfs]
    have hp := findStringEnd_noNT cs i
    rw [hfs] at hp
    exact hp
  | case3 count i h hbs hq j2 hj2 hfs ih =>
    rw [fmbLoop_eq_str h hbs hq hfs]
    exact ih
  | case4 count i h hbs hq e hb =>
    rw [fmbLoop_eq_bump_err h hbs hq hb]
    have hp := fmbBump_noNT cs opening closing isDouble count i cs[i]
    rw [hb] at hp
    exact hp
  | case5 count i h hbs hq i2 hb =>
    rw [fmbLoop_eq_bump_done h hbs hq hb]
    exact noNT_ok _
  | case6 count i h hbs hq count2 i2 hb hc2 ih =>
    rw [fmbLoop_eq_bump_next h hbs hq hb hc2]
    exact ih
  | case7 count i h =>
    rw [fmbLoop_eq_end h]
    exact noNT_err (by simp)

theorem findMatchingBracket_noNT (cs : List Char) (start : Nat) (strict isDouble : Bool) :
    noNT (findMatchingBracket cs start strict isDouble) := by
  unfold findMatchingBracket
  split
  next e hd =>
    have hp := pyGetNat_noNT cs start
    rw [hd] at hp
    exact hp
  next opening hd =>
    split
    · exact noNT_err (by simp)
    next closing hmap =>
      split
      · split
        next e heq =>
          have hp := pyGetNat_noNT cs (start + 1)
          rw [heq] at hp
          exact hp
        next c1 heq =>
          split
          · exact noNT_err (by simp)
          · exact fmbLoop_noNT cs opening closing strict isDouble 1 (start + 1)
      · exact fmbLoop_noNT cs opening closing strict isDouble 1 (start + 1)

theorem fmbBump_count {cs : List Char} {opening closing : Char} {isDouble : Bool}
    {count count2 : Int} {i i2 : Nat} {c : Char}
    (h : fmbBump cs opening closing isDouble count i c = .ok (count2, i2)) :
    count - 1 ≤ count2 ∧ count2 ≤ count + 1 := by
  unfold fmbBump at h
  repeat' split at h
  all_goals cases h
  all_goals omega

/-- In single-bracket mode a successful depth-zero exit happens exactly at a
closing character. -/
theorem fmbBump_done_closing {cs : List Char} {opening closing : Char}
    {count : Int} {i i2 : Nat} {c : Char} (hcount : 1 ≤ count)
    (h : fmbBump cs opening closing false count i c = .ok (0, i2)) :
    c = closing ∧ i2 = i := by
  unfold fmbBump at h
  split at h
  · simp only [Bool.false_eq_true, if_false] at h
    injection h with h2
    injection h2 with hc hi
    omega
  · split at h
    next hcc =>
      simp only [Bool.false_eq_true, if_false] at h
      injection h with h2
      injection h2 with hc hi
      exact ⟨hcc, hi.symm⟩
    · injection h with h2
      injection h2 with hc hi
      omega

theorem fmbLoop_closing (cs : List Char) (opening closing : Char) (count : Int) (i : Nat)
    (hcount : 1 ≤ count) :
    ∀ j, fmbLoop cs opening closing false false count i = .ok j → cs[j]? = some closing := by
  induction count, i using fmbLoop.induct cs opening closing false false with
  | case1 count i h hc ih =>
    intro j hj
    rw [fmbLoop_eq_bs h hc] at hj
    exact ih hcount j hj
  | case2 count i h hbs hq e hfs =>
    intro j hj
    rw [fmbLoop_eq_str_err h hbs hq hfs] at hj
    cases hj
  | case3 count i h hbs hq j2 hj2 hfs ih =>
    intro j hj
    rw [fmbLoop_eq_str h hbs hq hfs] at hj
    exact ih hcount j hj
  | case4 count i h hbs hq e hb =>
    intro j hj
    rw [fmbLoop_eq_bump_err h hbs hq hb] at hj
    cases hj
  | case5 count i h hbs hq i2 hb =>
    intro j hj
    rw [fmbLoop_eq_bump_done h hbs hq hb] at hj
    injection hj with hj2
    obtain ⟨hc, hi⟩ := fmbBump_done_closing hcount hb
    rw [← hj2, hi, List.getElem?_eq_getElem h, hc]
  | case6 count i h hbs hq count2 i2 hb hc2 ih =>
    intro j hj
    rw [fmbLoop_eq_bump_next h hbs hq hb hc2] at hj
    have hcn := fmbBump_count hb
    exact ih (by omega) j hj
  | case7 count i h =>
    intro j hj
    rw [fmbLoop_eq_end h] at hj
    cases hj

theorem bracketMap_closing {c cl : Char} (h : bracketMap c = some cl) :
    isPySpace cl = false ∧ ¬ cl = '.' := by
  unfold bracketMap at h
  split at h
  · injection h with h2; subst h2; exact ⟨by decide, by decide⟩
  · split at h
    · injection h with h2; subst h2; exact ⟨by decide, by decide⟩
    · split at h
      · injection h with h2; subst h2; exact ⟨by decide, by decide⟩
      · split at h
        · injection h with h2; subst h2; exact ⟨by decide, by decide⟩
        · cases h

/-- The bracket matched in single mode ends at its closing character, a
non-space, non-dot character. -/
theorem findMatchingBracket_closing {cs : List Char} {start j : Nat}
    (h : findMatchingBracket cs start false false = .ok j) :
    ∃ cl, cs[j]? = some cl ∧ isPySpace cl = false ∧ ¬ cl = '.' := by
  unfold findMatchingBracket at h
  split at h
  · cases h
  next opening hd =>
    split at h
    · cases h
    next closing hmap =>
      simp only [Bool.false_eq_true, if_false] at h
      exact ⟨closing, fmbLoop_closing cs opening closing 1 (start + 1) (by omega) j h,
        bracketMap_closing hmap⟩

theorem isOnlyTextOnLine_noNT (cs : List Char) (start endI : Int) :
    noNT (isOnlyTextOnLine cs start endI) := by
  unfold isOnlyTextOnLine
  refine noNT_bind (pyGetLine_noNT _ _) ?_
  intro a _
  refine noNT_bind (pyGetLine_noNT _ _) ?_
  intro b _
  exact noNT_ok _

/-- A macro string whose first and last characters are non-space, so that
`str.strip()` leaves it unchanged and the stripping arithmetic of
`read_pyndoc_macro` removes nothing. -/
def GoodStr (m : List Char) : Prop :=
  (∃ c, m.head? = some c ∧ isPySpace c = false) ∧
  (∃ l, m.getLast? = some l ∧ isPySpace l = false)

theorem pyLstrip_eq_self {m : List Char} (h : ∀ c, m.head? = some c → isPySpace c = false) :
    pyLstrip m = m := by
  unfold pyLstrip
  cases m with
  | nil => rfl
  | cons a t =>
    rw [List.dropWhile_cons, h a rfl]
    simp

theorem pyRstrip_eq_self {m : List Char} (h : ∀ c, m.getLast? = some c → isPySpace c = false) :
    pyRstrip m = m := by
  unfold pyRstrip
  have h2 : m.reverse.dropWhile isPySpace = m.reverse := by
    cases hr : m.reverse with
    | nil => rfl
    | cons a t =>
      rw [List.dropWhile_cons]
      have ha : m.getLast? = some a := by
        rw [← List.head?_reverse, hr]
        rfl
      rw [h a ha]
      simp
  rw [h2, List.reverse_reverse]

theorem pyStrip_eq_self {m : List Char} (hm : GoodStr m) : pyStrip m = m := by
  obtain ⟨⟨hh, hhh, hhs⟩, ⟨hl, hll, hls⟩⟩ := hm
  unfold pyStrip
  rw [pyLstrip_eq_self (fun c hc => by
    rw [hhh] at hc
    injection hc with hc
    subst hc
    exact hhs)]
  exact pyRstrip_eq_self (fun c hc => by
    rw [hll] at hc
    injection hc with hc
    subst hc
    exact hls)

theorem isPySpace_word {c : Char} (h : isWordChar c = true ∨ c = '.') :
    isPySpace c = false := by
  cases hp : isPySpace c
  · rfl
  · exfalso
    unfold isPySpace at hp
    simp only [Bool.or_eq_true, decide_eq_true_eq] at hp
    rcases hp with ((((h1 | h1) | h1) | h1) | h1) | h1 <;> subst h1 <;> revert h <;> decide

theorem getIdentifier_facts {cs : List Char} {start skip : Nat} {name : List Char}
    (h : getIdentifier cs start = (skip, some name)) :
    (∃ c, name.head? = some c ∧ isWordChar c = true) ∧
    (∀ a ∈ name, isWordChar a = true ∨ a = '.') := by
  unfold getIdentifier at h
  split at h
  next c hc =>
    split at h
    next hw =>
      injection h with h1 h2
      injection h2 with h2
      subst h2
      refine ⟨⟨c, rfl, hw⟩, ?_⟩
      intro a ha
      simp only [List.mem_cons] at ha
      rcases ha with ha | ha
      · subst ha
        exact Or.inl hw
      · have := List.mem_takeWhile_imp ha
        simp only [Bool.or_eq_true, decide_eq_true_eq] at this
        exact this
    · cases h
  · cases h

theorem goodStr_append {m args : List Char} (hm : GoodStr m)
    (hne : args ≠ []) (hlast : ∃ l, args.getLast? = some l ∧ isPySpace l = false) :
    GoodStr (m ++ args) := by
  obtain ⟨⟨hh, hhh, hhs⟩, _⟩ := hm
  refine ⟨⟨hh, ?_, hhs⟩, ?_⟩
  · rw [List.head?_append, hhh]
    rfl
  · obtain ⟨l, hll, hls⟩ := hlast
    exact ⟨l, by rw [List.getLast?_append_of_ne_nil m hne]; exact hll, hls⟩

theorem pySliceNN_getLast {cs : List Char} {i bE : Nat} (hle : i ≤ bE) (hlt : bE < cs.length) :
    (pySliceNN cs i (bE + 1)).getLast? = cs[bE]? ∧ pySliceNN cs i (bE + 1) ≠ [] := by
  unfold pySliceNN
  have hlen : ((cs.take (bE + 1)).drop i).length = bE + 1 - i := by
    simp only [List.length_drop, List.length_take]
    omega
  constructor
  · rw [List.getLast?_eq_getElem?, hlen, List.getElem?_drop, List.getElem?_take,
      if_pos (by omega)]
    congr 1
    omega
  · intro hnil
    rw [hnil] at hlen
    simp only [List.length_nil] at hlen
    omega

theorem nonempty_getLast {field : List Char} (hne : field ≠ []) :
    ∃ l, field.getLast? = some l ∧ l ∈ field := by
  have hlen : 0 < field.length := List.length_pos.mpr hne
  have h2 : field[field.length - 1]? = some (field.get ⟨field.length - 1, by omega⟩) :=
    List.getElem?_eq_getElem (by omega)
  refine ⟨field.get ⟨field.length - 1, by omega⟩, ?_, List.getElem?_mem h2⟩
  rw [List.getLast?_eq_getElem?]
  exact h2

theorem macroCollect_noNT (cs : List Char) (m : List Char) (nc : Option Char) (i : Nat) :
    noNT (macroCollect cs m nc i) := by
  rw [macroCollect.eq_def]
  split
  next hw =>
    split
    · split
      next e heq =>
        have hp := findMatchingBracket_noNT cs i false false
        rw [heq] at hp
        exact hp
      next bracketEnd heq =>
        dsimp only
        have hgt := findMatchingBracket_gt heq
        exact macroCollect_noNT cs _ _ (bracketEnd + 1)
    · dsimp only
      split
      next skip field heq =>
        have hsk := (getIdentifier_some heq).2
        exact macroCollect_noNT cs _ _ (i + 1 + skip)
      next heq => exact noNT_ok _
  next hw => exact noNT_ok _
termination_by cs.length - i
decreasing_by
  all_goals omega

theorem macroCollect_ok (cs : List Char) (m : List Char) (nc : Option Char) (i : Nat) :
    ∀ m2 i2, macroCollect cs m nc i = .ok (m2, i2) →
      i ≤ i2 ∧ (GoodStr m → GoodStr m2) ∧
      (m2.getLast? = some '.' → m2 = m ∨ i + 3 ≤ i2) := by
  intro m2 i2 h
  rw [macroCollect.eq_def] at h
  split at h
  next hw =>
    split at h
    · split at h
      next e heq => cases h
      next bracketEnd heq =>
        dsimp only at h
        have hgt := findMatchingBracket_gt heq
        obtain ⟨cl, hcl, hcls, hcld⟩ := findMatchingBracket_closing heq
        have hbE : bracketEnd < cs.length := (List.getElem?_eq_some.mp hcl).1
        obtain ⟨hsl, hsne⟩ := pySliceNN_getLast (show i ≤ bracketEnd by omega) hbE
        have ih := macroCollect_ok cs (m ++ pySliceNN cs i (bracketEnd + 1)) _
          (bracketEnd + 1) m2 i2 h
        refine ⟨by omega, ?_, ?_⟩
        · intro hg
          exact ih.2.1 (goodStr_append hg hsne ⟨cl, by rw [hsl]; exact hcl, hcls⟩)
        · intro hd
          rcases ih.2.2 hd with he | hge
          · rw [he, List.getLast?_append_of_ne_nil m hsne, hsl, hcl] at hd
            injection hd with hd
            exact absurd hd hcld
          · exact Or.inr (by omega)
    · dsimp only at h
      split at h
      next skip field heq =>
        have hsk := getIdentifier_some heq
        obtain ⟨⟨c, hch, hcw⟩, hall⟩ := getIdentifier_facts heq
        have hfne : field ≠ [] := by
          intro hn
          rw [hn] at hch
          cases hch
        obtain ⟨l, hfl, hlm⟩ := nonempty_getLast hfne
        have hdl : ('.' :: field : List Char).getLast? = some l := by
          rw [show ('.' :: field : List Char) = ['.'] ++ field from rfl,
            List.getLast?_append_of_ne_nil _ hfne]
          exact hfl
        have ih := macroCollect_ok cs (m ++ '.' :: field) _ (i + 1 + skip) m2 i2 h
        refine ⟨by omega, ?_, ?_⟩
        · intro hg
          exact ih.2.1 (goodStr_append hg (by simp)
            ⟨l, hdl, isPySpace_word (hall l hlm)⟩)
        · intro hd
          rcases ih.2.2 hd with he | hge
          · rw [he, List.getLast?_append_of_ne_nil m (by simp), hdl] at hd
            injection hd with hd
            subst hd
            have hflen : 2 ≤ field.length := by
              rcases field with _ | ⟨a, t⟩
              · exact absurd rfl hfne
              · injection hch with hch
                subst hch
                rcases t with _ | ⟨b, t2⟩
                · exfalso
                  have ha : a = '.' := by simpa using hfl
                  subst ha
                  exact absurd hcw (by decide)
                · simp only [List.length_cons]
                  omega
            exact Or.inr (by omega)
          · exact Or.inr (by omega)
      next heq =>
        injection h with h2
        injection h2 with ha hb
        subst ha
        subst hb
        exact ⟨by omega, fun hg => hg, fun _ => Or.inl rfl⟩
  next hw =>
    injection h with h2
    injection h2 with ha hb
    subst ha
    subst hb
    exact ⟨by omega, fun hg => hg, fun _ => Or.inl rfl⟩
termination_by cs.length - i
decreasing_by
  all_goals omega

theorem rawMacroArgs_noNT (cs : List Char) (args : List (List Char × Bool))
    (nc : Option Char) (i : Nat) : noNT (rawMacroArgs cs args nc i) := by
  rw [rawMacroArgs.eq_def]
  split
  next hw =>
    split
    · exact noNT_err (by simp)
    next nch heq =>
      dsimp only
      split
      next e heq2 =>
        have hp := findMatchingBracket_noNT cs i false (nch == lbrace)
        rw [heq2] at hp
        exact hp
      next argEnd heq2 =>
        have hgt := findMatchingBracket_gt heq2
        exact rawMacroArgs_noNT cs _ _ (argEnd + 1)
  next hw => exact noNT_ok _
termination_by cs.length - i
decreasing_by
  all_goals omega

theorem rawMacroArgs_ge (cs : List Char) (args : List (List Char × Bool))
    (nc : Option Char) (i : Nat) :
    ∀ args2 i2, rawMacroArgs cs args nc i = .ok (args2, i2) → i ≤ i2 := by
  intro args2 i2 h
  rw [rawMacroArgs.eq_def] at h
  split at h
  next hw =>
    split at h
    · cases h
    next nch heq =>
      dsimp only at h
      split at h
      next e heq2 => cases h
      next argEnd heq2 =>
        have hgt := findMatchingBracket_gt heq2
        have := rawMacroArgs_ge cs _ _ (argEnd + 1) args2 i2 h
        omega
  next hw =>
    injection h with h2
    injection h2 with ha hb
    omega
termination_by cs.length - i
decreasing_by
  all_goals omega

theorem readCodeLoop1_good (cs : List Char) (delimiter : Char) (start i : Nat)
    (hle : start ≤ i) : stepGood (readCodeLoop1 cs delimiter start i) := by
  rw [readCodeLoop1.eq_def]
  split
  next h =>
    split
    · exact readCodeLoop1_good cs delimiter start (i + 2) (by omega)
    · split
      · rw [stepGood_ok]
        omega
      · exact readCodeLoop1_good cs delimiter start (i + 1) (by omega)
  next h =>
    rw [stepGood_err]
    simp
termination_by cs.length - i
decreasing_by
  all_goals omega

theorem readCodeLoop2_good (cs : List Char) (delimiter : Char) (start i : Nat)
    (hle : start ≤ i) : stepGood (readCodeLoop2 cs delimiter start i) := by
  rw [readCodeLoop2.eq_def]
  split
  next h =>
    split
    · exact readCodeLoop2_good cs delimiter start (i + 2) (by omega)
    · split
      · split
        next e heq =>
          have hp := pyGetNat_noNT cs (i + 1)
          rw [heq] at hp
          exact hp
        next c1 heq =>
          split
          · rw [stepGood_ok]
            omega
          · exact readCodeLoop2_good cs delimiter start (i + 1) (by omega)
      · exact readCodeLoop2_good cs delimiter start (i + 1) (by omega)
  next h =>
    rw [stepGood_err]
    simp
termination_by cs.length - i
decreasing_by
  all_goals omega

theorem readCodeLoop3_good (cs : List Char) (delimiter : Char) (start i : Nat)
    (hle : start ≤ i) : stepGood (readCodeLoop3 cs delimiter start i) := by
  rw [readCodeLoop3.eq_def]
  split
  next h =>
    split
    · exact readCodeLoop3_good cs delimiter start (i + 2) (by omega)
    · split
      · split
        next e heq =>
          have hp := deindent_noNT (pySliceNN cs start (i + 1))
          rw [heq] at hp
          exact hp
        next block heq =>
          rw [stepGood_ok]
          omega
      · exact readCodeLoop3_good cs delimiter start (i + 1) (by omega)
  next h =>
    rw [stepGood_err]
    simp
termination_by cs.length - i
decreasing_by
  all_goals omega

theorem readCode_good (cs : List Char) (start : Nat) : stepGood (readCode cs start) := by
  unfold readCode
  split
  next e heq =>
    have hp := pyGetNat_noNT cs start
    rw [heq] at hp
    exact hp
  next delimiter heq =>
    split
    · rw [stepGood_ok]
    · split
      next e heq1 =>
        have hp := pyGetNat_noNT cs (start + 1)
        rw [heq1] at hp
        exact hp
      next c1 heq1 =>
        split
        · rw [stepGood_ok]
        · split
          · exact readCodeLoop1_good cs delimiter start (start + 1) (by omega)
          · split
            · split
              next e heq2 =>
                have hp := pyGetNat_noNT cs (start + 2)
                rw [heq2] at hp
                exact hp
              next c2 heq2 =>
                split
                · exact readCodeLoop2_good cs delimiter start (start + 2) (by omega)
                · exact readCodeLoop3_good cs delimiter start (start + 3) (by omega)
            · exact readCodeLoop3_good cs delimiter start (start + 3) (by omega)

theorem readMathLoop1_good (cs : List Char) (delimiter : Char) (start i : Nat)
    (hle : start ≤ i) : stepGood (readMathLoop1 cs delimiter start i) := by
  rw [readMathLoop1.eq_def]
  split
  next h =>
    split
    · exact readMathLoop1_good cs delimiter start (i + 2) (by omega)
    · split
      · rw [stepGood_ok]
        omega
      · exact readMathLoop1_good cs delimiter start (i + 1) (by omega)
  next h =>
    rw [stepGood_err]
    simp
termination_by cs.length - i
decreasing_by
  all_goals omega

theorem readMathLoop2_good (cs : List Char) (delimiter : Char) (start i : Nat)
    (hle : start ≤ i) : stepGood (readMathLoop2 cs delimiter start i) := by
  rw [readMathLoop2.eq_def]
  split
  next h =>
    split
    · exact readMathLoop2_good cs delimiter start (i + 2) (by omega)
    · split
      · rw [stepGood_ok]
        omega
      · exact readMathLoop2_good cs delimiter start (i + 1) (by omega)
  next h =>
    rw [stepGood_err]
    simp
termination_by cs.length - i
decreasing_by
  all_goals omega

theorem readMath_good (cs : List Char) (start : Nat) : stepGood (readMath cs start) := by
  unfold readMath
  split
  next e heq =>
    have hp := pyGetNat_noNT cs start
    rw [heq] at hp
    exact hp
  next delimiter heq =>
    split
    · rw [stepGood_ok]
    · split
      next e heq1 =>
        have hp := pyGetNat_noNT cs (start + 1)
        rw [heq1] at hp
        exact hp
      next c1 heq1 =>
        split
        · exact readMathLoop1_good cs delimiter start (start + 1) (by omega)
        · exact readMathLoop2_good cs delimiter start (start + 2) (by omega)

theorem specStepN_good (cs : List Char) (i1 : Nat) :
    noNT (specStepN cs i1) ∧ ∀ p, specStepN cs i1 = .ok p → i1 ≤ p.2 := by
  unfold specStepN
  split
  · constructor
    · refine noNT_bind (pyGetNat_noNT cs i1) ?_
      intro a _
      split
      · split
        · rw [pure_eq_ok]
          exact noNT_ok _
        · rw [pure_eq_ok]
          exact noNT_ok _
      · rw [pure_eq_ok]
        exact noNT_ok _
    · intro p hp
      cases hg : pyGetNat cs i1 with
      | error e =>
        rw [hg, bind_err] at hp
        cases hp
      | ok cAt =>
        rw [hg, bind_ok] at hp
        split at hp
        · split at hp
          next skipSpec sp heq =>
            rw [pure_eq_ok] at hp
            injection hp with hp
            subst hp
            exact Nat.le_add_right i1 skipSpec
          next heq =>
            rw [pure_eq_ok] at hp
            injection hp with hp
            subst hp
            exact Nat.le_refl i1
        · rw [pure_eq_ok] at hp
          injection hp with hp
          subst hp
          exact Nat.le_refl i1
  · constructor
    · rw [pure_eq_ok]
      exact noNT_ok _
    · intro p hp
      rw [pure_eq_ok] at hp
      injection hp with hp
      subst hp
      exact Nat.le_refl i1

theorem quietStepN_good (cs : List Char) (i2 : Nat) :
    noNT (quietStepN cs i2) ∧ ∀ p, quietStepN cs i2 = .ok p → i2 ≤ p.2 := by
  unfold quietStepN
  split
  · constructor
    · refine noNT_bind (pyGetNat_noNT cs i2) ?_
      intro a _
      split
      · rw [pure_eq_ok]
        exact noNT_ok _
      · rw [pure_eq_ok]
        exact noNT_ok _
    · intro p hp
      cases hg : pyGetNat cs i2 with
      | error e =>
        rw [hg, bind_err] at hp
        cases hp
      | ok cAt =>
        rw [hg, bind_ok] at hp
        split at hp
        · rw [pure_eq_ok] at hp
          injection hp with hp
          subst hp
          exact Nat.le_succ i2
        · rw [pure_eq_ok] at hp
          injection hp with hp
          subst hp
          exact Nat.le_refl i2
  · constructor
    · rw [pure_eq_ok]
      exact noNT_ok _
    · intro p hp
      rw [pure_eq_ok] at hp
      injection hp with hp
      subst hp
      exact Nat.le_refl i2

theorem specStepI_good (cs : List Char) (i5 : Int) :
    noNT (specStepI cs i5) ∧ ∀ p, specStepI cs i5 = .ok p → i5 ≤ p.2 := by
  unfold specStepI
  split
  · constructor
    · refine noNT_bind (pyGetInt_noNT cs i5) ?_
      intro a _
      split
      · split
        · rw [pure_eq_ok]
          exact noNT_ok _
        · rw [pure_eq_ok]
          exact noNT_ok _
      · rw [pure_eq_ok]
        exact noNT_ok _
    · intro p hp
      cases hg : pyGetInt cs i5 with
      | error e =>
        rw [hg, bind_err] at hp
        cases hp
      | ok cAt =>
        rw [hg, bind_ok] at hp
        split at hp
        · split at hp
          next skipSpec sp heq =>
            rw [pure_eq_ok] at hp
            injection hp with hp
            subst hp
            show i5 ≤ i5 + (skipSpec : Int)
            omega
          next heq =>
            rw [pure_eq_ok] at hp
            injection hp with hp
            subst hp
            show i5 ≤ i5
            omega
        · rw [pure_eq_ok] at hp
          injection hp with hp
          subst hp
          show i5 ≤ i5
          omega
  · constructor
    · rw [pure_eq_ok]
      exact noNT_ok _
    · intro p hp
      rw [pure_eq_ok] at hp
      injection hp with hp
      subst hp
      show i5 ≤ i5
      omega

theorem quietStepI_good (cs : List Char) (i6 : Int) :
    noNT (quietStepI cs i6) ∧ ∀ p, quietStepI cs i6 = .ok p → i6 ≤ p.2 := by
  unfold quietStepI
  split
  · constructor
    · refine noNT_bind (pyGetInt_noNT cs i6) ?_
      intro a _
      split
      · rw [pure_eq_ok]
        exact noNT_ok _
      · rw [pure_eq_ok]
        exact noNT_ok _
    · intro p hp
      cases hg : pyGetInt cs i6 with
      | error e =>
        rw [hg, bind_err] at hp
        cases hp
      | ok cAt =>
        rw [hg, bind_ok] at hp
        split at hp
        · rw [pure_eq_ok] at hp
          injection hp with hp
          subst hp
          show i6 ≤ i6 + 1
          omega
        · rw [pure_eq_ok] at hp
          injection hp with hp
          subst hp
          show i6 ≤ i6
          omega
  · constructor
    · rw [pure_eq_ok]
      exact noNT_ok _
    · intro p hp
      rw [pure_eq_ok] at hp
      injection hp with hp
      subst hp
      show i6 ≤ i6
      omega

theorem macroPrefixLen_pos (isDouble : Bool) (isInline : Option Bool) :
    1 ≤ macroPrefixLen isDouble isInline ∧ macroPrefixLen isDouble isInline ≤ 3 := by
  unfold macroPrefixLen
  split <;> split <;> omega

theorem readPyndocExpression_good (cs : List Char) (start : Nat) :
    stepGood (readPyndocExpression cs start) := by
  unfold readPyndocExpression
  dsimp only
  refine stepGood_bind (pyGetNat_noNT cs start) ?_
  intro c0 _
  refine stepGood_bind (pyGetNat_noNT cs _) ?_
  intro cD _
  refine stepGood_bind (findMatchingBracket_noNT cs _ false false) ?_
  intro bracketEnd hbE
  have hgt := findMatchingBracket_gt hbE
  have hpl := macroPrefixLen_pos (cD == '%')
    (if c0 = 'i' then some true else if c0 = 'b' then some false else none)
  refine stepGood_bind (specStepN_good cs _).1 ?_
  intro p hp
  obtain ⟨specifier, i2⟩ := p
  have h2 := (specStepN_good cs _).2 _ hp
  refine stepGood_bind (quietStepN_good cs _).1 ?_
  intro q hq
  obtain ⟨isQuiet, i3⟩ := q
  have h3 := (quietStepN_good cs _).2 _ hq
  refine stepGood_bind (isOnlyTextOnLine_noNT cs _ _) ?_
  intro isSolo _
  rw [pure_eq_ok, stepGood_ok]
  simp only at h2 h3
  omega

theorem readPyndocBlock_good (cs : List Char) (start : Nat) :
    stepGood (readPyndocBlock cs start) := by
  unfold readPyndocBlock
  dsimp only
  refine stepGood_bind (findMatchingBracket_noNT cs (start + 1) false false) ?_
  intro endB hbE
  have hgt := findMatchingBracket_gt hbE
  refine stepGood_bind (deindent_noNT _) ?_
  intro block _
  refine stepGood_bind (isOnlyTextOnLine_noNT cs _ _) ?_
  intro isSolo _
  rw [pure_eq_ok, stepGood_ok]
  split <;> omega

theorem readPyndocFile_good (cs : List Char) (start : Nat)
    (targetFormat : Option (List Char)) :
    stepGood (readPyndocFile cs start targetFormat) := by
  unfold readPyndocFile
  dsimp only
  refine stepGood_bind (findMatchingBracket_noNT cs (start + 5) false false) ?_
  intro endB hbE
  have hgt := findMatchingBracket_gt hbE
  split
  · rw [stepGood_err]
    simp
  · refine stepGood_bind (isOnlyTextOnLine_noNT cs _ _) ?_
    intro u _
    rw [pure_eq_ok, stepGood_ok]
    split <;> omega

theorem readPyndocRawMacro_good (cs : List Char) (startN : Nat) (macroName : List Char)
    (isDouble : Bool) (isInline : Option Bool) :
    stepGood (readPyndocRawMacro cs startN macroName isDouble isInline) := by
  unfold readPyndocRawMacro
  dsimp only
  refine stepGood_bind (pyGetNat_noNT cs startN) ?_
  intro nc0 _
  refine stepGood_bind (rawMacroArgs_noNT cs [] (some nc0) startN) ?_
  intro p hp
  obtain ⟨args, i1⟩ := p
  have h1 := rawMacroArgs_ge cs [] (some nc0) startN args i1 hp
  split
  · rw [stepGood_err]
    simp
  · refine stepGood_bind (specStepN_good cs i1).1 ?_
    intro q hq
    obtain ⟨specifier, i2⟩ := q
    have h2 := (specStepN_good cs i1).2 _ hq
    refine stepGood_bind (quietStepN_good cs i2).1 ?_
    intro r hr
    obtain ⟨isQuiet, i3⟩ := r
    have h3 := (quietStepN_good cs i2).2 _ hr
    refine stepGood_bind (isOnlyTextOnLine_noNT cs _ _) ?_
    intro isSolo _
    rw [pure_eq_ok, stepGood_ok]
    have hpl := macroPrefixLen_pos isDouble isInline
    simp only at h2 h3
    omega

theorem wordName_dot_len {name0 : List Char} {c : Char}
    (hch : name0.head? = some c) (hcw : isWordChar c = true)
    (hdot : name0.getLast? = some '.') : 2 ≤ name0.length := by
  rcases name0 with _ | ⟨a, t⟩
  · cases hch
  · injection hch with hch
    subst hch
    rcases t with _ | ⟨b, t2⟩
    · exfalso
      have ha : a = '.' := by simpa using hdot
      subst ha
      exact absurd hcw (by decide)
    · simp only [List.length_cons]
      omega

theorem head?_dropLast {l : List Char} {c : Char} (h : l.head? = some c)
    (hlen : 2 ≤ l.length) : l.dropLast.head? = some c := by
  rw [List.dropLast_eq_take, List.head?_eq_getElem?, List.getElem?_take, if_pos (by omega)]
  rw [List.head?_eq_getElem?] at h
  exact h

theorem dropLast_getLast_mem {l : List Char} (hlen : 2 ≤ l.length) :
    ∃ x, l.dropLast.getLast? = some x ∧ x ∈ l := by
  have hdl : l.dropLast.length = l.length - 1 := List.length_dropLast l
  have hne : l.dropLast ≠ [] := by
    intro hn
    rw [hn] at hdl
    simp only [List.length_nil] at hdl
    omega
  obtain ⟨x, hx, hxm⟩ := nonempty_getLast hne
  refine ⟨x, hx, ?_⟩
  rw [List.dropLast_eq_take] at hxm
  exact List.take_subset _ _ hxm

/-- The closing specifier/quiet/solo tail of `read_pyndoc_macro`
(preprocess.py lines 383-402) consumes at least one character past the
original start. -/
theorem macroTail_good (cs : List Char) (startI : Int) (i5 : Int) (macroStr : List Char)
    (isDouble : Bool) (isInline : Option Bool) (hlt : startI + 1 ≤ i5) :
    stepGood (do
      let (specifier, i6) ← specStepI cs i5
      let (isQuiet, i7) ← quietStepI cs i6
      let isSolo ← isOnlyTextOnLine cs startI (i7 - 1)
      pure ((i7 - startI),
        formatAsMarkdown macroStr isDouble isQuiet isSolo isInline specifier)) := by
  refine stepGood_bind (specStepI_good cs i5).1 ?_
  intro p hp
  obtain ⟨specifier, i6⟩ := p
  have h6 := (specStepI_good cs i5).2 _ hp
  refine stepGood_bind (quietStepI_good cs i6).1 ?_
  intro q hq
  obtain ⟨isQuiet, i7⟩ := q
  have h7 := (quietStepI_good cs i6).2 _ hq
  refine stepGood_bind (isOnlyTextOnLine_noNT cs _ _) ?_
  intro isSolo _
  rw [pure_eq_ok, stepGood_ok]
  simp only at h6 h7
  omega

theorem readPyndocMacro_good (cs : List Char) (start : Nat) :
    stepGood (readPyndocMacro cs start) := by
  unfold readPyndocMacro
  dsimp only
  refine stepGood_bind (pyGetNat_noNT cs start) ?_
  intro c0 _
  refine stepGood_bind (pyGetNat_noNT cs _) ?_
  intro cD _
  generalize (if c0 = 'i' then some true else if c0 = 'b' then some false else none :
    Option Bool) = isInl
  split
  next _ heqid =>
    rw [stepGood_err]
    simp
  next skip name0 heqid =>
    have hsk := getIdentifier_some heqid
    obtain ⟨⟨c, hch, hcw⟩, hall⟩ := getIdentifier_facts heqid
    have hpl := macroPrefixLen_pos (cD == '%') isInl
    have hne0 : name0 ≠ [] := by
      intro hn
      rw [hn] at hch
      cases hch
    by_cases hdot : name0.getLast? = some '.'
    · have h2le : 2 ≤ name0.length := wordName_dot_len hch hcw hdot
      simp only [if_pos hdot]
      have hGname : GoodStr name0.dropLast := by
        obtain ⟨x, hx, hxm⟩ := dropLast_getLast_mem h2le
        exact ⟨⟨c, head?_dropLast hch h2le, isPySpace_word (Or.inl hcw)⟩,
          ⟨x, hx, isPySpace_word (hall x hxm)⟩⟩
      split
      next hEnd =>
        refine stepGood_bind (isOnlyTextOnLine_noNT cs _ _) ?_
        intro isSolo _
        rw [pure_eq_ok, stepGood_ok]
        omega
      next hEnd =>
        refine stepGood_bind (pyGetNat_noNT cs _) ?_
        intro nextChar _
        split
        · exact readPyndocRawMacro_good cs _ _ _ _
        · refine stepGood_bind (macroCollect_noNT cs _ _ _) ?_
          intro p hpz
          obtain ⟨macroStr0, i3⟩ := p
          obtain ⟨hge3, hgood3, hdot3⟩ := macroCollect_ok cs _ _ _ macroStr0 i3 hpz
          have hG : GoodStr macroStr0 := hgood3 hGname
          dsimp only
          rw [pyStrip_eq_self hG]
          simp only [Nat.sub_self, Nat.cast_zero, sub_zero]
          by_cases hdd : macroStr0.getLast? = some '.'
          · simp only [if_pos hdd]
            rcases hdot3 hdd with heqm | hge4
            · have h3le : 3 ≤ name0.length := by
                rw [heqm] at hdd
                have := wordName_dot_len (head?_dropLast hch h2le) hcw hdd
                have hdl := List.length_dropLast name0
                omega
              exact macroTail_good cs start _ _ _ _ (by omega)
            · exact macroTail_good cs start _ _ _ _ (by omega)
          · simp only [if_neg hdd]
            exact macroTail_good cs start _ _ _ _ (by omega)
    · simp only [if_neg hdot]
      have hGname : GoodStr name0 := by
        obtain ⟨x, hx, hxm⟩ := nonempty_getLast hne0
        exact ⟨⟨c, hch, isPySpace_word (Or.inl hcw)⟩,
          ⟨x, hx, isPySpace_word (hall x hxm)⟩⟩
      split
      next hEnd =>
        refine stepGood_bind (isOnlyTextOnLine_noNT cs _ _) ?_
        intro isSolo _
        rw [pure_eq_ok, stepGood_ok]
        omega
      next hEnd =>
        refine stepGood_bind (pyGetNat_noNT cs _) ?_
        intro nextChar _
        split
        · exact readPyndocRawMacro_good cs _ _ _ _
        · refine stepGood_bind (macroCollect_noNT cs _ _ _) ?_
          intro p hpz
          obtain ⟨macroStr0, i3⟩ := p
          obtain ⟨hge3, hgood3, hdot3⟩ := macroCollect_ok cs _ _ _ macroStr0 i3 hpz
          have hG : GoodStr macroStr0 := hgood3 hGname
          dsimp only
          rw [pyStrip_eq_self hG]
          simp only [Nat.sub_self, Nat.cast_zero, sub_zero]
          by_cases hdd : macroStr0.getLast? = some '.'
          · simp only [if_pos hdd]
            rcases hdot3 hdd with heqm | hge4
            · exfalso
              rw [heqm] at hdd
              exact hdot hdd
            · exact macroTail_good cs start _ _ _ _ (by omega)
          · simp only [if_neg hdd]
            exact macroTail_good cs start _ _ _ _ (by omega)

set_option maxHeartbeats 1000000 in
theorem readPyndocMdFile_good_aux (fs : List (List Char × List Char)) (depth : Nat)
    (cs : List Char) (start : Nat) (fmt : Option (List Char))
    (hpre : ∀ d2 cs2 fmt2, depth = d2 + 1 → noNT (preprocess fs d2 cs2 fmt2)) :
    stepGood (readPyndocMdFile fs depth cs start fmt) := by
  rw [readPyndocMdFile.eq_def]
  split
  next e heq =>
    have hp := findMatchingBracket_noNT cs (start + 5) false false
    rw [heq] at hp
    exact hp
  next endB heq =>
    have hgt := findMatchingBracket_gt heq
    split
    · rw [stepGood_err]
      simp
    next fmt2 =>
      dsimp only
      split
      · rw [stepGood_err]
        simp
      next fileContents hlook =>
        split
        · rw [stepGood_err]
          simp
        next d2 =>
          split
          next e heq2 =>
            have hp := hpre d2 fileContents (some fmt2) rfl
            rw [heq2] at hp
            exact hp
          next processed heq2 =>
            rw [stepGood_ok]
            omega

set_option maxHeartbeats 4000000 in
theorem readPyndocConditionalMdFile_good_aux (fs : List (List Char × List Char))
    (depth : Nat) (cs : List Char) (start : Nat) (fmt : Option (List Char))
    (hpre : ∀ d2 cs2 fmt2, depth = d2 + 1 → noNT (preprocess fs d2 cs2 fmt2)) :
    stepGood (readPyndocConditionalMdFile fs depth cs start fmt) := by
  rw [readPyndocConditionalMdFile.eq_def]
  split
  next e heq =>
    have hp := findMatchingBracket_noNT cs (start + "%%%mdifformat".length) false false
    rw [heq] at hp
    exact hp
  next endB heq =>
    have hgt := findMatchingBracket_gt heq
    split
    next e heq1 =>
      have hp := parseCondOptions_noNT
        (pySliceNN cs (start + "%%%mdifformat".length + 1) endB)
      rw [heq1] at hp
      exact hp
    next options heq1 =>
      split
      · rw [stepGood_ok]
        omega
      · split
        · rw [stepGood_err]
          simp
        next fmt2 =>
          dsimp only
          split
          · rw [stepGood_ok]
            omega
          next path hfind =>
            split
            · rw [stepGood_err]
              simp
            next fileContents hlook =>
              split
              · rw [stepGood_err]
                simp
              next d2 =>
                split
                next e heq2 =>
                  have hp := hpre d2 fileContents (some fmt2) rfl
                  rw [heq2] at hp
                  exact hp
                next processed heq2 =>
                  rw [stepGood_ok]
                  omega

theorem driverStep_good_aux (fs : List (List Char × List Char)) (d : Nat)
    (cs : List Char) (fmt : Option (List Char)) (i : Nat)
    (hmd : ∀ s, stepGood (readPyndocMdFile fs d cs s fmt))
    (hcond : ∀ s, stepGood (readPyndocConditionalMdFile fs d cs s fmt)) :
    stepGood (driverStep fs d cs fmt i) := by
  rw [driverStep.eq_def]
  split
  next e heq =>
    have hp := pyGetNat_noNT cs i
    rw [heq] at hp
    exact hp
  next c heq =>
    split
    · rw [stepGood_ok]
      have := commentEnd_ge cs i
      omega
    · split
      · split
        · rw [stepGood_ok]
          omega
        · rw [stepGood_ok]
      · split
        · exact readCode_good cs i
        · split
          · exact readMath_good cs i
          · split
            · exact readPyndocMacro_good cs i
            · split
              · exact readPyndocExpression_good cs i
              · split
                · exact readPyndocBlock_good cs i
                · split
                  · exact readPyndocFile_good cs i fmt
                  · split
                    · exact hcond i
                    · split
                      · exact hmd i
                      · rw [stepGood_ok]

theorem preprocessLoop_noNT_aux (fs : List (List Char × List Char)) (d : Nat)
    (cs : List Char) (fmt : Option (List Char)) (i chunkIdx : Nat) (acc : List Char)
    (hD : ∀ j, stepGood (driverStep fs d cs fmt j)) :
    noNT (preprocessLoop fs d cs fmt i chunkIdx acc) := by
  rw [preprocessLoop.eq_def]
  split
  next hlt =>
    split
    next idx2 sz heq =>
      have hsz := tryChunks_some heq
      exact preprocessLoop_noNT_aux fs d cs fmt (i + sz) idx2 _ hD
    next idx2 heq =>
      split
      next e heq2 =>
        have hp := hD i
        rw [heq2] at hp
        exact hp
      next skip txt heq2 =>
        have hp := hD i
        rw [heq2, stepGood_ok] at hp
        have hs1 : 1 ≤ skip.toNat := by omega
        rw [dif_pos (show (0 : Int) < skip from by omega)]
        exact preprocessLoop_noNT_aux fs d cs fmt (i + skip.toNat) idx2 _ hD
  next hlt => exact noNT_ok _
termination_by cs.length - i
decreasing_by
  all_goals omega

theorem preprocess_noNT_aux (fs : List (List Char × List Char)) (d : Nat)
    (cs : List Char) (fmt : Option (List Char))
    (hD : ∀ j, stepGood (driverStep fs d cs fmt j)) :
    noNT (preprocess fs d cs fmt) := by
  rw [preprocess.eq_def]
  split
  next e heq =>
    have hp := preprocessLoop_noNT_aux fs d cs fmt 0 0 [] hD
    rw [heq] at hp
    exact hp
  next newText heq => exact noNT_ok _

theorem depthGood (d : Nat) :
    (∀ fs cs start fmt, stepGood (readPyndocMdFile fs d cs start fmt)) ∧
    (∀ fs cs start fmt, stepGood (readPyndocConditionalMdFile fs d cs start fmt)) ∧
    (∀ fs cs fmt i, stepGood (driverStep fs d cs fmt i)) ∧
    (∀ fs cs fmt i chunkIdx acc, noNT (preprocessLoop fs d cs fmt i chunkIdx acc)) ∧
    (∀ fs cs fmt, noNT (preprocess fs d cs fmt)) := by
  induction d with
  | zero =>
    have hmd : ∀ fs cs start fmt, stepGood (readPyndocMdFile fs 0 cs start fmt) :=
      fun fs cs start fmt => readPyndocMdFile_good_aux fs 0 cs start fmt
        (fun d2 cs2 fmt2 hd => absurd hd (by omega))
    have hcond : ∀ fs cs start fmt,
        stepGood (readPyndocConditionalMdFile fs 0 cs start fmt) :=
      fun fs cs start fmt => readPyndocConditionalMdFile_good_aux fs 0 cs start fmt
        (fun d2 cs2 fmt2 hd => absurd hd (by omega))
    have hdrv : ∀ fs cs fmt i, stepGood (driverStep fs 0 cs fmt i) :=
      fun fs cs fmt i => driverStep_good_aux fs 0 cs fmt i
        (fun s => hmd fs cs s fmt) (fun s => hcond fs cs s fmt)
    exact ⟨hmd, hcond, hdrv,
      fun fs cs fmt i k acc => preprocessLoop_noNT_aux fs 0 cs fmt i k acc
        (fun j => hdrv fs cs fmt j),
      fun fs cs fmt => preprocess_noNT_aux fs 0 cs fmt (fun j => hdrv fs cs fmt j)⟩
  | succ d2 ih =>
    have hmd : ∀ fs cs start fmt, stepGood (readPyndocMdFile fs (d2 + 1) cs start fmt) :=
      fun fs cs start fmt => readPyndocMdFile_good_aux fs (d2 + 1) cs start fmt
        (fun d3 cs2 fmt2 hd => by
          injection hd with hd
          subst hd
          exact ih.2.2.2.2 fs cs2 fmt2)
    have hcond : ∀ fs cs start fmt,
        stepGood (readPyndocConditionalMdFile fs (d2 + 1) cs start fmt) :=
      fun fs cs start fmt => readPyndocConditionalMdFile_good_aux fs (d2 + 1) cs start fmt
        (fun d3 cs2 fmt2 hd => by
          injection hd with hd
          subst hd
          exact ih.2.2.2.2 fs cs2 fmt2)
    have hdrv : ∀ fs cs fmt i, stepGood (driverStep fs (d2 + 1) cs fmt i) :=
      fun fs cs fmt i => driverStep_good_aux fs (d2 + 1) cs fmt i
        (fun s => hmd fs cs s fmt) (fun s => hcond fs cs s fmt)
    exact ⟨hmd, hcond, hdrv,
      fun fs cs fmt i k acc => preprocessLoop_noNT_aux fs (d2 + 1) cs fmt i k acc
        (fun j => hdrv fs cs fmt j),
      fun fs cs fmt => preprocess_noNT_aux fs (d2 + 1) cs fmt (fun j => hdrv fs cs fmt j)⟩

/-- C6: every reader invoked by the driver loop — `read_code`, `read_math`,
`read_pyndoc_macro`, `read_pyndoc_expression`, `read_pyndoc_block`,
`read_pyndoc_raw_macro`, `read_pyndoc_file`, `read_pyndoc_md_file` and
`read_pyndoc_conditional_md_file` — is well behaved (`stepGood`): whenever
it returns normally the consumed length is at least 1, and a failure is a
genuine exception. Hence every driver-loop iteration strictly advances the
cursor and the scan terminates on every input on which no error is raised:
neither `preprocessLoop` nor `preprocess` ever produces the
`nonTermination` marker that models a stuck loop. -/
theorem C6_reader_progress :
    (∀ cs start, stepGood (readCode cs start)) ∧
    (∀ cs start, stepGood (readMath cs start)) ∧
    (∀ cs start, stepGood (readPyndocMacro cs start)) ∧
    (∀ cs start, stepGood (readPyndocExpression cs start)) ∧
    (∀ cs start, stepGood (readPyndocBlock cs start)) ∧
    (∀ cs startN macroName isDouble isInline,
      stepGood (readPyndocRawMacro cs startN macroName isDouble isInline)) ∧
    (∀ cs start fmt, stepGood (readPyndocFile cs start fmt)) ∧
    (∀ fs d cs start fmt, stepGood (readPyndocMdFile fs d cs start fmt)) ∧
    (∀ fs d cs start fmt, stepGood (readPyndocConditionalMdFile fs d cs start fmt)) ∧
    (∀ fs d cs fmt i, stepGood (driverStep fs d cs fmt i)) ∧
    (∀ fs d cs fmt i chunkIdx acc, noNT (preprocessLoop fs d cs fmt i chunkIdx acc)) ∧
    (∀ fs d cs fmt, noNT (preprocess fs d cs fmt)) :=
  ⟨readCode_good, readMath_good, readPyndocMacro_good, readPyndocExpression_good,
   readPyndocBlock_good, readPyndocRawMacro_good, readPyndocFile_good,
   fun fs d cs start fmt => (depthGood d).1 fs cs start fmt,
   fun fs d cs start fmt => (depthGood d).2.1 fs cs start fmt,
   fun fs d cs fmt i => (depthGood d).2.2.1 fs cs fmt i,
   fun fs d cs fmt i k acc => (depthGood d).2.2.2.1 fs cs fmt i k acc,
   fun fs d cs fmt => (depthGood d).2.2.2.2 fs cs fmt⟩

end Pyndoc
